import Mathlib

/-!
Verification of the conversation-to-mind-map extraction core and its
surrounding orchestration, as implemented in `src/utils/instantMindMap.ts`,
`src/services/deepseekService.ts`, `src/components/SWOTView.tsx` and the main
application component.  JavaScript strings are modelled as lists of characters,
JavaScript numbers occurring as node weights as integers, and the millisecond
clock `Date.now()` as an explicit parameter (one value per call site, since
consecutive calls may or may not return the same millisecond).
-/

/-- JavaScript strings, modelled as lists of characters. -/
abbrev Str := List Char

/-- Coerce a Lean string literal to the `Str` model. -/
def str (s : String) : Str := s.data

/-- Characters matched by the JavaScript regex class `\s` (ASCII part; the
rarely-relevant Unicode space characters are not modelled). -/
def jsWS (c : Char) : Bool :=
  c == ' ' || c == '\t' || c == '\n' || c == '\r' || c == '\x0b' || c == '\x0c'

/-- ASCII lower-casing, as used by `toLowerCase()` and the `i` regex flag on
the ASCII input the extractor works with. -/
def asciiLower (c : Char) : Char :=
  if 'A' ≤ c && c ≤ 'Z' then Char.ofNat (c.toNat + 32) else c

/-- ASCII upper-casing for `toUpperCase()` on a single character. -/
def asciiUpper (c : Char) : Char :=
  if 'a' ≤ c && c ≤ 'z' then Char.ofNat (c.toNat - 32) else c

/-- Does `cs` start with the pattern `ps` (exact characters)? -/
def startsWith : Str → Str → Bool
  | [], _ => true
  | _ :: _, [] => false
  | p :: ps, c :: cs => p == c && startsWith ps cs

/-- Does `cs` start with the (lower-case) pattern `ps`, comparing
case-insensitively (the regex `i` flag)? -/
def ciStartsWith : Str → Str → Bool
  | [], _ => true
  | _ :: _, [] => false
  | p :: ps, c :: cs => asciiLower c == p && ciStartsWith ps cs

/-- Substring test: does `hay` contain `needle` (JavaScript `includes`)? -/
def containsSub (needle : Str) : Str → Bool
  | [] => needle.isEmpty
  | c :: cs => startsWith needle (c :: cs) || containsSub needle cs

/-- `trim()`: strip whitespace from both ends. -/
def jsTrim (cs : Str) : Str :=
  ((cs.dropWhile jsWS).reverse.dropWhile jsWS).reverse

/-- `split(d)` on a single-character separator, keeping empty pieces
(JavaScript semantics). -/
def splitOnChar (d : Char) : Str → List Str
  | [] => [[]]
  | c :: cs =>
    if c == d then [] :: splitOnChar d cs
    else
      match splitOnChar d cs with
      | [] => [[c]]
      | t :: ts => (c :: t) :: ts

/-- Remove every (non-overlapping, left-to-right) occurrence of the literal
pattern `pat`, as `replace(/pat/g, "")` does; fueled by the input length. -/
def removeAllAux (pat : Str) : Nat → Str → Str
  | 0, cs => cs
  | _ + 1, [] => []
  | f + 1, c :: cs =>
    if startsWith pat (c :: cs) then removeAllAux pat f (cs.drop (pat.length - 1))
    else c :: removeAllAux pat f cs

/-- `replace(/pat/g, "")` for a literal nonempty pattern. -/
def removeAll (pat : Str) (cs : Str) : Str := removeAllAux pat cs.length cs

/-- Drop a single trailing character `d` if present (`replace(/d$/, "")`). -/
def dropTrailing (d : Char) (cs : Str) : Str :=
  if cs.getLast? == some d then cs.dropLast else cs

/-- `split(/\s+/)`, keeping the leading/trailing empty pieces JavaScript
produces; fueled by the input length. -/
def jsSplitWsAux : Nat → Str → List Str
  | 0, cs => [cs]
  | f + 1, cs =>
    let tok := cs.takeWhile (fun c => !jsWS c)
    let rest := cs.drop tok.length
    match rest with
    | [] => [tok]
    | _ => tok :: jsSplitWsAux f (rest.dropWhile jsWS)

/-- `split(/\s+/)`. -/
def jsSplitWs (cs : Str) : List Str := jsSplitWsAux cs.length cs

/-- Number of `/\s+/`-separated pieces, as used for the word-count checks. -/
def wordCount (cs : Str) : Nat := (jsSplitWs cs).length

/-- `join(" ")`. -/
def joinSpace : List Str → Str
  | [] => []
  | [t] => t
  | t :: ts => t ++ ' ' :: joinSpace ts

/-- First index of character `c` (JavaScript `indexOf`, `none` for `-1`). -/
def idxOf : Str → Char → Option Nat
  | [], _ => none
  | x :: xs, c =>
    if x == c then some 0
    else match idxOf xs c with
      | some i => some (i + 1)
      | none => none

/-- Last index of character `c` (JavaScript `lastIndexOf`). -/
def lastIdxOf (cs : Str) (c : Char) : Option Nat :=
  match idxOf cs.reverse c with
  | some i => some (cs.length - 1 - i)
  | none => none

/-- ASCII decimal digit test. -/
def isDigitCh (c : Char) : Bool := '0' ≤ c && c ≤ '9'

/-- ASCII upper-case letter test (the regex class `[A-Z]`). -/
def isUpperCh (c : Char) : Bool := 'A' ≤ c && c ≤ 'Z'

/-- ASCII lower-case letter test. -/
def isLowerCh (c : Char) : Bool := 'a' ≤ c && c ≤ 'z'

/-- The regex class `\w` (ASCII word characters). -/
def isWordCh (c : Char) : Bool :=
  isLowerCh c || isUpperCh c || isDigitCh c || c == '_'

/-- `\w` or `\s`, the class the topic-extraction captures range over. -/
def isWordWS (c : Char) : Bool := isWordCh c || jsWS c

/-- The decimal digit character for `d` (`d` is always taken mod-10 context). -/
def digitCh (d : Nat) : Char :=
  match d with
  | 0 => '0' | 1 => '1' | 2 => '2' | 3 => '3' | 4 => '4'
  | 5 => '5' | 6 => '6' | 7 => '7' | 8 => '8' | _ => '9'

/-- Decimal rendering of a natural number (the template-literal `${n}`),
fueled so that it is a structural recursion. -/
def natStrAux : Nat → Nat → Str
  | 0, _ => []
  | f + 1, n =>
    if n < 10 then [digitCh n]
    else natStrAux f (n / 10) ++ [digitCh (n % 10)]

/-- Decimal rendering of a natural number. -/
def natStr (n : Nat) : Str := natStrAux (n + 1) n

/-- Read a digit string back as a number (used only to reason about id
injectivity). -/
def charsToNat (cs : Str) : Nat :=
  cs.foldl (fun a c => a * 10 + (c.toNat - 48)) 0

/-! ## Data model (`src/types`, as used by `src/utils/instantMindMap.ts`) -/

/-- The `role` field of a chat `Message`. -/
inductive Role where
  | user
  | model
deriving DecidableEq

/-- A chat message (`{role, text}`; the timestamp plays no part in extraction). -/
structure Message where
  role : Role
  text : Str

/-- The `type` field of a `MindMapNode`. -/
inductive NodeType where
  | root
  | topic
  | option
  | outcome
  | pro
  | con
deriving DecidableEq

/-- A mind-map node.  `children` is empty where the source leaves the field
undefined, and `isRecommendation` is `false` where the source leaves it
undefined. -/
inductive MindMapNode where
  | mk (id : Str) (name : Str) (type : NodeType) (weight : Int)
      (isRecommendation : Bool) (children : List MindMapNode)

def MindMapNode.id : MindMapNode → Str
  | .mk i _ _ _ _ _ => i

def MindMapNode.name : MindMapNode → Str
  | .mk _ n _ _ _ _ => n

def MindMapNode.type : MindMapNode → NodeType
  | .mk _ _ t _ _ _ => t

def MindMapNode.weight : MindMapNode → Int
  | .mk _ _ _ w _ _ => w

def MindMapNode.isRecommendation : MindMapNode → Bool
  | .mk _ _ _ _ r _ => r

def MindMapNode.children : MindMapNode → List MindMapNode
  | .mk _ _ _ _ _ ch => ch

/-- A freshly mined node: no children, not yet a recommendation. -/
def mkNode (id name : Str) (type : NodeType) (weight : Int) : MindMapNode :=
  .mk id name type weight false []

/-- Synthesized node ids: a tag followed by `-`-separated decimal components,
as built by the template literals in `extractFromAIMessage`. -/
def mkId (tag : Str) (parts : List Nat) : Str :=
  tag ++ parts.flatMap (fun n => '-' :: natStr n)

/-! ## Regex scanners for `extractFromAIMessage`

Each JavaScript regex used by the extractor is compiled by hand into a
deterministic matcher, following the backtracking semantics of the original
pattern.  Global scans (`/g`, and the `exec` loops) are non-overlapping
left-to-right scans, modelled by `scanG`/`scanFirst` with the input length as
fuel. -/

/-- Generic global scan: at each position try the matcher; on a match, emit its
payload and continue after the consumed text, otherwise advance one character. -/
def scanG {α : Type} (tryf : Str → Option (α × Str)) : Nat → Str → List α
  | 0, _ => []
  | _ + 1, [] => []
  | f + 1, c :: cs =>
    match tryf (c :: cs) with
    | some (a, rest) => a :: scanG tryf f rest
    | none => scanG tryf f cs

/-- Generic first-match scan (a regex without the `g` flag). -/
def scanFirst {α : Type} (tryf : Str → Option α) : Nat → Str → Option α
  | 0, _ => none
  | _ + 1, [] => none
  | f + 1, c :: cs =>
    match tryf (c :: cs) with
    | some a => some a
    | none => scanFirst tryf f cs

/-- Matcher for `/\[OPTIONS:\s*([^\]]+)\]/gi` at the current position: the
literal opener (case-insensitive), then at least one non-`]` character, then
the first `]`.  Returns the whole match and the rest of the input. -/
def tryOptionsAt (cs : Str) : Option (Str × Str) :=
  if ciStartsWith (str "[options:") cs then
    let after := cs.drop 9
    let content := after.takeWhile (fun c => !(c == ']'))
    if content.isEmpty then none
    else
      match after.drop content.length with
      | c :: rest =>
        if c == ']' then some (cs.take (9 + content.length + 1), rest) else none
      | [] => none
  else none

/-- All matches of `/\[OPTIONS:\s*([^\]]+)\]/gi`. -/
def optionsMatches (text : Str) : List Str := scanG tryOptionsAt text.length text

/-- `match.replace(/\[OPTIONS:\s*/i, "").replace(/\]$/, "")` applied to a
match (which starts with the opener and ends with `]`). -/
def stripOptionsMatch (m : Str) : Str :=
  dropTrailing ']' ((m.drop 9).dropWhile jsWS)

/-- `optionsStr.split("|").map(trim).filter(nonempty)`. -/
def optionChoices (m : Str) : List Str :=
  ((splitOnChar '|' (stripOptionsMatch m)).map jsTrim).filter (fun o => !o.isEmpty)

/-- Step 1 of `extractFromAIMessage`: one `option` node per pipe-delimited
choice, weight `7 - j` by list position, id `option-<ts>-<i>-<j>`. -/
def optionNodes (ts : Nat) (text : Str) : List MindMapNode :=
  (optionsMatches text).enum.flatMap fun im =>
    (optionChoices im.2).enum.map fun cj =>
      mkNode (mkId (str "option") [ts, im.1, cj.1]) cj.2 .option (7 - (cj.1 : Int))

/-- Matcher for `/\*\*([^*]+)\*\*:/g` at the current position: `**`, at least
one non-`*` character, then `**:`. -/
def tryBoldAt : Str → Option (Str × Str)
  | '*' :: '*' :: rest =>
    let content := rest.takeWhile (fun c => !(c == '*'))
    if content.isEmpty then none
    else
      match rest.drop content.length with
      | '*' :: '*' :: ':' :: rem =>
        some ('*' :: '*' :: content ++ str "**:", rem)
      | _ => none
  | _ => none

/-- All matches of `/\*\*([^*]+)\*\*:/g`. -/
def boldMatches (text : Str) : List Str := scanG tryBoldAt text.length text

/-- `match.replace(/\*\*/g, "").replace(/:$/, "").trim()`. -/
def boldLabel (m : Str) : Str := jsTrim (dropTrailing ':' (removeAll (str "**") m))

/-- Keyword classification of a bold-colon header label. -/
def boldType (label : Str) : NodeType :=
  let l := label.map asciiLower
  if containsSub (str "pro") l || containsSub (str "advantage") l ||
      containsSub (str "benefit") l then .pro
  else if containsSub (str "con") l || containsSub (str "disadvantage") l ||
      containsSub (str "risk") l then .con
  else .option

/-- Step 2 accumulator: add a bold-header node if the label is short and not
already present by exact name, id `bold-<ts>-<i>`. -/
def addBold (ts : Nat) (acc : List MindMapNode) (im : Nat × Str) : List MindMapNode :=
  let label := boldLabel im.2
  if label.length < 40 && !(acc.any fun n => n.name == label) then
    acc ++ [mkNode (mkId (str "bold") [ts, im.1]) label (boldType label) 6]
  else acc

/-- The bullet-marker class of `bulletPattern`.  The source file contains the
three bytes of a mojibake-encoded bullet glyph, so the class is
`- * â € ¢`. -/
def bulletClass (c : Char) : Bool :=
  c == '-' || c == '*' || c == 'â' || c == '€' || c == '¢'

/-- Matcher for the body of `bulletPattern`
(`\s*[-*â€¢]\s+([A-Z][^.\n]{2,40})(?:\n|$)`) after the `(?:^|\n)` anchor.
Returns the captured item and the rest (the terminating newline is consumed,
as `exec`'s `lastIndex` does). -/
def tryBulletBody (cs : Str) : Option (Str × Str) :=
  let s1 := cs.dropWhile jsWS
  match s1 with
  | b :: s2 =>
    if bulletClass b then
      match s2 with
      | w :: _ =>
        if jsWS w then
          match s2.dropWhile jsWS with
          | u :: s4 =>
            if isUpperCh u then
              let run := s4.takeWhile (fun c => !(c == '.') && !(c == '\n'))
              if 2 ≤ run.length && run.length ≤ 40 then
                match s4.drop run.length with
                | [] => some (u :: run, [])
                | '\n' :: rest => some (u :: run, rest)
                | _ => none
              else none
            else none
          | [] => none
        else none
      | [] => none
    else none
  | [] => none

/-- `bulletPattern` at a `\n` anchor. -/
def tryBulletNL : Str → Option (Str × Str)
  | '\n' :: rest => tryBulletBody rest
  | _ => none

/-- All captures of the `bulletPattern` `exec` loop.  The `^` alternative of
the anchor only matches at position 0. -/
def bulletItemsRaw (text : Str) : List Str :=
  match tryBulletBody text with
  | some (item, rest) => item :: scanG tryBulletNL rest.length rest
  | none => scanG tryBulletNL text.length text

/-- Step 3 accumulator: short bullet items become `option` nodes of weight 5,
id `bullet-<ts>-<length>`. -/
def addBullet (ts : Nat) (acc : List MindMapNode) (itemRaw : Str) : List MindMapNode :=
  let item := jsTrim itemRaw
  if wordCount item ≤ 5 && !(acc.any fun n => n.name == item) then
    acc ++ [mkNode (mkId (str "bullet") [ts, acc.length]) item .option 5]
  else acc

/-- Consume the trailing `\*?\*?` of `numberedPattern` (greedy, nothing
follows). -/
def dropUpTo2Stars : Str → Str
  | '*' :: '*' :: r => r
  | '*' :: r => r
  | r => r

/-- Matcher for the body of `numberedPattern`
(`\s*\d+\.\s+\*?\*?([A-Z][^.\n]{2,40})\*?\*?`) after the `(?:^|\n)` anchor.
The capture is greedy and capped at 41 characters; no trailing anchor, so the
terminating newline is not consumed. -/
def tryNumBody (cs : Str) : Option (Str × Str) :=
  let s1 := cs.dropWhile jsWS
  let digits := s1.takeWhile isDigitCh
  if digits.isEmpty then none
  else
    match s1.drop digits.length with
    | '.' :: s2 =>
      match s2 with
      | w :: _ =>
        if jsWS w then tryNumStars (s2.dropWhile jsWS)
        else none
      | [] => none
    | _ => none
where
  /-- `\*?\*?([A-Z]...)`: try two leading stars, then one, then none. -/
  tryNumStars (s3 : Str) : Option (Str × Str) :=
    match s3 with
    | '*' :: '*' :: u :: s4 =>
      if isUpperCh u then tryNumCore u s4 else tryNumOne ('*' :: u :: s4)
    | other => tryNumOne other
  tryNumOne : Str → Option (Str × Str)
    | '*' :: u :: s4 =>
      if isUpperCh u then tryNumCore u s4 else tryNumZero (u :: s4)
    | other => tryNumZero other
  tryNumZero : Str → Option (Str × Str)
    | u :: s4 => if isUpperCh u then tryNumCore u s4 else none
    | [] => none
  tryNumCore (u : Char) (s4 : Str) : Option (Str × Str) :=
    let run := s4.takeWhile (fun c => !(c == '.') && !(c == '\n'))
    if 2 ≤ run.length then
      let k := min run.length 40
      some (u :: run.take k, dropUpTo2Stars (s4.drop k))
    else none

/-- `numberedPattern` at a `\n` anchor. -/
def tryNumNL : Str → Option (Str × Str)
  | '\n' :: rest => tryNumBody rest
  | _ => none

/-- All captures of the `numberedPattern` `exec` loop. -/
def numItemsRaw (text : Str) : List Str :=
  match tryNumBody text with
  | some (item, rest) => item :: scanG tryNumNL rest.length rest
  | none => scanG tryNumNL text.length text

/-- Step 4 accumulator: numbered items become `option` nodes of weight 6,
id `num-<ts>-<length>`. -/
def addNum (ts : Nat) (acc : List MindMapNode) (itemRaw : Str) : List MindMapNode :=
  let item := jsTrim (removeAll (str "**") itemRaw)
  if wordCount item ≤ 6 && !(acc.any fun n => n.name == item) then
    acc ++ [mkNode (mkId (str "num") [ts, acc.length]) item .option 6]
  else acc

/-- The four alternatives of `recPattern`, in order. -/
def recKeywords : List Str :=
  [str "recommend", str "suggest", str "best option", str "my choice"]

/-- `[^.\n]+` greedy capture; fails if empty. -/
def recCap (r : Str) : Option Str :=
  let cap := r.takeWhile (fun c => !(c == '.') && !(c == '\n'))
  if cap.isEmpty then none else some cap

/-- `\*?\*?([^.\n]+)`: try two leading stars, then one, then none. -/
def recStars (r : Str) : Option Str :=
  match r with
  | '*' :: '*' :: r2 =>
    match recCap r2 with
    | some cap => some cap
    | none => recStarsOne ('*' :: r2)
  | other => recStarsOne other
where
  recStarsOne : Str → Option Str
    | '*' :: r2 =>
      match recCap r2 with
      | some cap => some cap
      | none => recCap ('*' :: r2)
    | other => recCap other

/-- `[:\s]+\*?\*?([^.\n]+)` after a keyword: the `[:\s]+` run is greedy and
backtracks one character at a time. -/
def recTailLoop (after : Str) : Nat → Option Str
  | 0 => none
  | a + 1 =>
    match recStars (after.drop (a + 1)) with
    | some cap => some cap
    | none => recTailLoop after a

/-- Matcher for `recPattern` at the current position: one of the four
keywords (case-insensitive), then `[:\s]+\*?\*?([^.\n]+)`.  Returns the
capture. -/
def tryRecAt (cs : Str) : Option Str :=
  tryKws recKeywords
where
  tryKws : List Str → Option Str
    | [] => none
    | kw :: kws =>
      if ciStartsWith kw cs then
        let after := cs.drop kw.length
        let a0 := (after.takeWhile (fun c => c == ':' || jsWS c)).length
        match recTailLoop after a0 with
        | some cap => some cap
        | none => tryKws kws
      else tryKws kws

/-- The first match of `recPattern` over the whole text. -/
def recFind (text : Str) : Option Str := scanFirst tryRecAt text.length text

/-- Promote a node to the recommendation (`isRecommendation = true`,
`weight = 10`), mutating it in place as the source does. -/
def promoteRec : MindMapNode → MindMapNode
  | .mk i n t _ _ ch => .mk i n t 10 true ch

/-- Replace the element at index `i`. -/
def updateAt {α : Type} (i : Nat) (f : α → α) : List α → List α
  | [] => []
  | x :: xs =>
    match i with
    | 0 => f x :: xs
    | j + 1 => x :: updateAt j f xs

/-- The fuzzy match of step 5: case-insensitive substring containment in
either direction. -/
def recMatches (recName : Str) (n : MindMapNode) : Bool :=
  containsSub (recName.map asciiLower) (n.name.map asciiLower) ||
    containsSub (n.name.map asciiLower) (recName.map asciiLower)

/-- Step 5 of `extractFromAIMessage`: on a recommendation phrase, promote the
first fuzzily-matching node, or push a fresh recommended `option` node with id
`rec-<ts>`. -/
def applyRec (ts : Nat) (text : Str) (ns : List MindMapNode) : List MindMapNode :=
  match recFind text with
  | none => ns
  | some cap =>
    let recName := (jsTrim (removeAll (str "**") cap)).take 40
    if recName.isEmpty then ns
    else
      match ns.findIdx? (recMatches recName) with
      | some i => updateAt i promoteRec ns
      | none => ns ++ [.mk (mkId (str "rec") [ts]) recName .option 10 true []]

/-- `extractFromAIMessage(text, msgIndex)` from `src/utils/instantMindMap.ts`.
`ts` is the value of the `Date.now()` call at the top of the function.  The
`msgIndex` parameter is, as in the source, never used. -/
def extractFromAIMessage (ts : Nat) (msgIndex : Nat) (text : Str) : List MindMapNode :=
  let ns1 := optionNodes ts text
  let ns2 := (boldMatches text).enum.foldl (addBold ts) ns1
  let ns3 := (bulletItemsRaw text).foldl (addBullet ts) ns2
  let ns4 := (numItemsRaw text).foldl (addNum ts) ns3
  applyRec ts text ns4

/-! ## Topic extraction and tree assembly (`generateInstantMindMap`) -/

/-- The maximal `[\w\s]+` capture starting here; fails if empty. -/
def wordRun (cs : Str) : Option Str :=
  let run := cs.takeWhile isWordWS
  if run.isEmpty then none else some run

/-- Pattern 1, `/should i ([\w\s]+)\??/i`, at the current position. -/
def tryTopic1 (cs : Str) : Option Str :=
  if ciStartsWith (str "should i ") cs then wordRun (cs.drop 9) else none

/-- Pattern 2, `/help me (decide|choose|pick) (?:on |about )?([\w\s]+)/i`, at
the current position; the used capture is group 2. -/
def tryTopic2 (cs : Str) : Option Str :=
  if ciStartsWith (str "help me ") cs then tryVerbs (cs.drop 8) [str "decide", str "choose", str "pick"]
  else none
where
  tryVerbs (after : Str) : List Str → Option Str
    | [] => none
    | v :: vs =>
      if ciStartsWith v after then
        match after.drop v.length with
        | ' ' :: after2 =>
          match tryOpt after2 [str "on ", str "about ", []] with
          | some cap => some cap
          | none => tryVerbs after vs
        | _ => tryVerbs after vs
      else tryVerbs after vs
  tryOpt (after2 : Str) : List Str → Option Str
    | [] => none
    | alt :: alts =>
      if ciStartsWith alt after2 then
        match wordRun (after2.drop alt.length) with
        | some cap => some cap
        | none => tryOpt after2 alts
      else tryOpt after2 alts

/-- Pattern 3, `/choosing between ([\w\s]+)/i`, at the current position. -/
def tryTopic3 (cs : Str) : Option Str :=
  if ciStartsWith (str "choosing between ") cs then wordRun (cs.drop 17) else none

/-- Greedy backtracking for `([\w\s]+) lit`: the longest `k ≥ 1` within the
`[\w\s]` run after which the literal follows. -/
def capBeforeLit (lit : Str) (after : Str) : Nat → Option Str
  | 0 => none
  | k + 1 =>
    if ciStartsWith lit (after.drop (k + 1)) then some (after.take (k + 1))
    else capBeforeLit lit after k

/-- Pattern 4, `/what ([\w\s]+) should/i`, at the current position. -/
def tryTopic4 (cs : Str) : Option Str :=
  if ciStartsWith (str "what ") cs then
    let after := cs.drop 5
    capBeforeLit (str " should") after (after.takeWhile isWordWS).length
  else none

/-- Pattern 5, `/best ([\w\s]+) for/i`, at the current position. -/
def tryTopic5 (cs : Str) : Option Str :=
  if ciStartsWith (str "best ") cs then
    let after := cs.drop 5
    capBeforeLit (str " for") after (after.takeWhile isWordWS).length
  else none

/-- `topic.charAt(0).toUpperCase() + topic.slice(1)`. -/
def capitalize : Str → Str
  | [] => []
  | c :: cs => asciiUpper c :: cs

/-- `extractMainTopic` from `src/utils/instantMindMap.ts`: the five patterns in
priority order on the first user message, else the first four words truncated
to 30 characters. -/
def extractMainTopic (userMessages : List Message) : Str :=
  match userMessages with
  | [] => str "Decision"
  | m :: _ =>
    let firstMsg := m.text
    let found :=
      match scanFirst tryTopic1 firstMsg.length firstMsg with
      | some cap => some cap
      | none =>
        match scanFirst tryTopic2 firstMsg.length firstMsg with
        | some cap => some cap
        | none =>
          match scanFirst tryTopic3 firstMsg.length firstMsg with
          | some cap => some cap
          | none =>
            match scanFirst tryTopic4 firstMsg.length firstMsg with
            | some cap => some cap
            | none => scanFirst tryTopic5 firstMsg.length firstMsg
    match found with
    | some cap => capitalize (jsTrim cap)
    | none =>
      let words := joinSpace ((jsSplitWs firstMsg).take 4)
      if 30 < words.length then words.take 30 ++ str "..." else words

/-- Lines 42–47 of `generateInstantMindMap`: mark the first node of kind
`option` as the recommendation (weight 10), unconditionally. -/
def markFirstOption : List MindMapNode → List MindMapNode
  | [] => []
  | n :: rest =>
    if n.type == .option then promoteRec n :: rest
    else n :: markFirstOption rest

/-- The minimal root node. -/
def instantRoot : MindMapNode :=
  .mk (str "root-instant") (str "Thought Space") .root 10 false []

/-- `generateInstantMindMap(messages)` from `src/utils/instantMindMap.ts`.
`topicTs` is the `Date.now()` of the topic-node id and `msgTs idx` the
`Date.now()` observed by the extraction of the `idx`-th AI message. -/
def generateInstantMindMap (topicTs : Nat) (msgTs : Nat → Nat)
    (messages : List Message) : MindMapNode :=
  match messages with
  | [] => instantRoot
  | _ :: _ =>
    let aiMessages := messages.filter fun m => m.role == .model
    let userMessages := messages.filter fun m => m.role == .user
    let mainTopic := extractMainTopic userMessages
    if mainTopic.isEmpty then instantRoot
    else
      let children := aiMessages.enum.flatMap fun im =>
        extractFromAIMessage (msgTs im.1) im.1 im.2.text
      let topicNode : MindMapNode :=
        .mk (str "topic-" ++ natStr topicTs) mainTopic .topic 8 false
          (markFirstOption children)
      .mk (str "root-instant") (str "Thought Space") .root 10 false [topicNode]

/-- The children of the topic node (the mined nodes), when a topic exists. -/
def topicChildren (n : MindMapNode) : List MindMapNode :=
  match n.children with
  | [] => []
  | t :: _ => t.children

/-! ## Id-erased view of a tree (for idempotence across `Date.now()` values) -/

/-- A mind-map node with the synthesized id erased; two extractions agree up to
ids exactly when their id-erased trees are equal. -/
inductive StripNode where
  | mk (name : Str) (type : NodeType) (weight : Int) (isRecommendation : Bool)
      (children : List StripNode)

mutual

/-- Erase ids from a node. -/
def stripN : MindMapNode → StripNode
  | .mk _ nm t w r ch => .mk nm t w r (stripL ch)

/-- Erase ids from a list of nodes. -/
def stripL : List MindMapNode → List StripNode
  | [] => []
  | n :: l => stripN n :: stripL l

end

mutual

/-- All ids of a tree, in pre-order. -/
def flatIds : MindMapNode → List Str
  | .mk i _ _ _ _ ch => i :: flatIdsL ch

/-- All ids of a forest, in pre-order. -/
def flatIdsL : List MindMapNode → List Str
  | [] => []
  | n :: l => flatIds n ++ flatIdsL l

end

/-- Decode a synthesized id back into its tag and decimal components; used to
reason about id collisions.  Ids of the shape `tag-n1-...-nk` (lower-case tag,
decimal components) decode to `some`; `root-instant` decodes to `none`. -/
def parsePartsAux : Nat → Str → Option (List Nat)
  | _, [] => some []
  | 0, _ :: _ => none
  | f + 1, '-' :: r =>
    let ds := r.takeWhile isDigitCh
    if ds.isEmpty then none
    else
      match parsePartsAux f (r.drop ds.length) with
      | some ps => some (charsToNat ds :: ps)
      | none => none
  | _ + 1, _ => none

/-- Decode a synthesized id (see `parsePartsAux`). -/
def parseId (cs : Str) : Option (Str × List Nat) :=
  let tag := cs.takeWhile isLowerCh
  match parsePartsAux cs.length (cs.drop tag.length) with
  | some ps => some (tag, ps)
  | none => none

/-! ## Graph reconciliation (`MindMap` in `src/components/SWOTView.tsx`)

Simulation nodes extend plain nodes with the physical state `x, y, vx, vy`
(`undefined` before the layout engine first touches a node, hence `Option`;
the numeric type of a coordinate is irrelevant to the merge and is modelled as
`Int`).  The d3 key-join that computes the exit selection is library code; it
is modelled by its documented semantics (old keys absent from the new data). -/

/-- A d3 simulation node. -/
structure SimNode where
  id : Str
  name : Str
  type : NodeType
  weight : Int
  isRecommendation : Bool
  x : Option Int
  y : Option Int
  vx : Option Int
  vy : Option Int
deriving DecidableEq

mutual

/-- `flattenGraph`'s node list: a pre-order traversal pushing a copy of each
node; tree nodes carry no physical state, so every copy starts with all of
`x, y, vx, vy` undefined. -/
def flattenNodes : MindMapNode → List SimNode
  | .mk i nm t w r ch =>
    { id := i, name := nm, type := t, weight := w, isRecommendation := r,
      x := none, y := none, vx := none, vy := none } :: flattenNodesL ch

/-- `flattenGraph` over a forest. -/
def flattenNodesL : List MindMapNode → List SimNode
  | [] => []
  | n :: l => flattenNodes n ++ flattenNodesL l

end

mutual

/-- `flattenGraph`'s link list: one `source → target` pair per parent/child
edge whose two ids are truthy, pushed before traversing the child. -/
def flattenLinks : MindMapNode → List (Str × Str)
  | .mk i _ _ _ _ ch => flattenLinksL i ch

/-- Links of the children of a node with id `pid`. -/
def flattenLinksL : Str → List MindMapNode → List (Str × Str)
  | _, [] => []
  | pid, c :: cs =>
    (if !pid.isEmpty && !c.id.isEmpty then [(pid, c.id)] else []) ++
      flattenLinks c ++ flattenLinksL pid cs

end

/-- `new Map((nodesRef.current || []).filter(n => n && n.id).map(n => [n.id, n])).get(i)`:
keys written later overwrite earlier ones, so the lookup finds the last
truthy-id node with the given id. -/
def lookupLast (prev : List SimNode) (i : Str) : Option SimNode :=
  ((prev.filter fun n => !n.id.isEmpty).reverse).find? fun n => n.id == i

/-- The merge strategy of lines 821–834: each new node with a truthy id found
in the previous working set receives that node's `x, y, vx, vy`; all other
nodes pass through unchanged. -/
def mergeNodes (prev new : List SimNode) : List SimNode :=
  new.map fun n =>
    if n.id.isEmpty then n
    else
      match lookupLast prev n.id with
      | some old => { n with x := old.x, y := old.y, vx := old.vx, vy := old.vy }
      | none => n

/-- The d3 exit selection of the node join keyed by `d.id` (lines 905–909):
previous nodes whose id no longer occurs in the new data, which receive the
shrink-and-remove transition rather than being dropped silently. -/
def exitNodes (prev new : List SimNode) : List SimNode :=
  prev.filter fun p => !(new.any fun n => n.id == p.id)

/-! ## The response decoder (`cleanAndParseJSON` in `src/services/deepseekService.ts`)

`JSON.parse` is modelled by a recursive-descent parser of the JSON grammar
(number literals are kept as their raw token text; `\u` escapes become the
corresponding code point, surrogate pairs are not combined). -/

/-- Parsed JSON values. -/
inductive Json where
  | null
  | bool (b : Bool)
  | num (raw : Str)
  | string (s : Str)
  | arr (elems : List Json)
  | obj (entries : List (Str × Json))

/-- The whitespace JSON itself allows between tokens. -/
def jsonWSch (c : Char) : Bool := c == ' ' || c == '\t' || c == '\n' || c == '\r'

/-- A hexadecimal digit's value. -/
def hexVal (c : Char) : Option Nat :=
  if '0' ≤ c && c ≤ '9' then some (c.toNat - 48)
  else if 'a' ≤ c && c ≤ 'f' then some (c.toNat - 87)
  else if 'A' ≤ c && c ≤ 'F' then some (c.toNat - 55)
  else none

/-- JSON string body (after the opening quote): characters and escapes up to
the closing quote. -/
def parseJString : Nat → Str → Option (Str × Str)
  | 0, _ => none
  | f + 1, cs =>
    match cs with
    | [] => none
    | '"' :: rest => some ([], rest)
    | '\\' :: rest =>
      match rest with
      | [] => none
      | 'u' :: h1 :: h2 :: h3 :: h4 :: rest2 =>
        match hexVal h1, hexVal h2, hexVal h3, hexVal h4 with
        | some a, some b, some c, some d =>
          match parseJString f rest2 with
          | some (s, r2) => some (Char.ofNat (((a * 16 + b) * 16 + c) * 16 + d) :: s, r2)
          | none => none
        | _, _, _, _ => none
      | e :: rest2 =>
        match
          (match e with
            | '"' => some '"' | '\\' => some '\\' | '/' => some '/'
            | 'b' => some '\x08' | 'f' => some '\x0c' | 'n' => some '\n'
            | 'r' => some '\r' | 't' => some '\t' | _ => none) with
        | some c =>
          match parseJString f rest2 with
          | some (s, r2) => some (c :: s, r2)
          | none => none
        | none => none
    | c :: rest =>
      if c.toNat < 32 then none
      else
        match parseJString f rest with
        | some (s, r2) => some (c :: s, r2)
        | none => none

/-- Lex a JSON number token, returning the raw token text and the rest. -/
def parseNumTok (cs : Str) : Option (Str × Str) :=
  let (sgn, r1) :=
    match cs with
    | '-' :: r => (['-'], r)
    | _ => (([] : Str), cs)
  match r1 with
  | '0' :: r2 =>
    match r2 with
    | d :: _ =>
      if isDigitCh d then none else afterInt (sgn ++ ['0']) r2
    | [] => afterInt (sgn ++ ['0']) r2
  | d :: _ =>
    if isDigitCh d then
      let ds := r1.takeWhile isDigitCh
      afterInt (sgn ++ ds) (r1.drop ds.length)
    else none
  | [] => none
where
  /-- Optional fraction and exponent after the integer part. -/
  afterInt (tok : Str) (r : Str) : Option (Str × Str) :=
    match r with
    | '.' :: r2 =>
      let ds := r2.takeWhile isDigitCh
      if ds.isEmpty then none
      else afterExp (tok ++ '.' :: ds) (r2.drop ds.length)
    | _ => afterExp tok r
  afterExp (tok : Str) (r : Str) : Option (Str × Str) :=
    match r with
    | e :: r2 =>
      if e == 'e' || e == 'E' then
        let (sg, r3) :=
          match r2 with
          | '+' :: r3 => (['+'], r3)
          | '-' :: r3 => (['-'], r3)
          | _ => (([] : Str), r2)
        let ds := r3.takeWhile isDigitCh
        if ds.isEmpty then none
        else some (tok ++ e :: sg ++ ds, r3.drop ds.length)
      else some (tok, r)
    | [] => some (tok, r)

mutual

/-- Parse one JSON value (leading whitespace allowed). -/
def parseVal : Nat → Str → Option (Json × Str)
  | 0, _ => none
  | f + 1, cs =>
    let cs1 := cs.dropWhile jsonWSch
    match cs1 with
    | '{' :: rest =>
      match rest.dropWhile jsonWSch with
      | '}' :: r3 => some (.obj [], r3)
      | _ =>
        match parseMembers f rest with
        | some (ms, r3) => some (.obj ms, r3)
        | none => none
    | '[' :: rest =>
      match rest.dropWhile jsonWSch with
      | ']' :: r3 => some (.arr [], r3)
      | _ =>
        match parseItems f rest with
        | some (xs, r3) => some (.arr xs, r3)
        | none => none
    | '"' :: rest =>
      match parseJString rest.length rest with
      | some (s, r2) => some (.string s, r2)
      | none => none
    | _ =>
      if startsWith (str "true") cs1 then some (.bool true, cs1.drop 4)
      else if startsWith (str "false") cs1 then some (.bool false, cs1.drop 5)
      else if startsWith (str "null") cs1 then some (.null, cs1.drop 4)
      else
        match parseNumTok cs1 with
        | some (tok, r2) => some (.num tok, r2)
        | none => none

/-- Parse the members of an object (after `{`, at least one member). -/
def parseMembers : Nat → Str → Option (List (Str × Json) × Str)
  | 0, _ => none
  | f + 1, cs =>
    match cs.dropWhile jsonWSch with
    | '"' :: rest =>
      match parseJString rest.length rest with
      | some (k, r2) =>
        match r2.dropWhile jsonWSch with
        | ':' :: r4 =>
          match parseVal f r4 with
          | some (v, r5) =>
            match r5.dropWhile jsonWSch with
            | ',' :: r7 =>
              match parseMembers f r7 with
              | some (ms, r8) => some ((k, v) :: ms, r8)
              | none => none
            | '}' :: r7 => some ([(k, v)], r7)
            | _ => none
          | none => none
        | _ => none
      | none => none
    | _ => none

/-- Parse the items of an array (after `[`, at least one item). -/
def parseItems : Nat → Str → Option (List Json × Str)
  | 0, _ => none
  | f + 1, cs =>
    match parseVal f cs with
    | some (v, r1) =>
      match r1.dropWhile jsonWSch with
      | ',' :: r3 =>
        match parseItems f r3 with
        | some (xs, r4) => some (v :: xs, r4)
        | none => none
      | ']' :: r3 => some ([v], r3)
      | _ => none
    | none => none

end

/-- `JSON.parse`: one value, trailing whitespace only. -/
def jsonParse (cs : Str) : Option Json :=
  match parseVal (cs.length + 1) cs with
  | some (v, rest) => if (rest.dropWhile jsonWSch).isEmpty then some v else none
  | none => none

/-- Step 1 of the decoder: strip the code-fence markers
(`replace(/```json/g, "").replace(/```/g, "")`). -/
def stripFences (text : Str) : Str :=
  removeAll (str "```") (removeAll (str "```json") text)

/-- Steps 2–3a: the structural start — the earlier of the first `{` and the
first `[`, `none` when neither occurs. -/
def jsonStart (cleaned : Str) : Option Nat :=
  match idxOf cleaned '{', idxOf cleaned '[' with
  | none, none => none
  | some b, none => some b
  | none, some k => some k
  | some b, some k => some (if b < k then b else k)

/-- Steps 3b–4a: cut after the later of the last `}` and the last `]` (no cut
when neither occurs, as `Math.max(-1, -1)` leaves `end = -1`). -/
def jsonSlice (cleaned2 : Str) : Str :=
  match lastIdxOf cleaned2 '}', lastIdxOf cleaned2 ']' with
  | none, none => cleaned2
  | some e, none => cleaned2.take (e + 1)
  | none, some e => cleaned2.take (e + 1)
  | some e1, some e2 => cleaned2.take (max e1 e2 + 1)

/-- The message of the error thrown by `cleanAndParseJSON`'s catch block. -/
def parseFailMsg : Str := str "Failed to parse AI response structure."

/-- `cleanAndParseJSON` from `src/services/deepseekService.ts`: strip fences,
slice from the structural start to the structural end, decode; both the
missing-structure case and a JSON decode failure surface as the same caught
error. -/
def cleanAndParseJSON (text : Str) : Except Str Json :=
  let cleaned := stripFences text
  match jsonStart cleaned with
  | none => .error parseFailMsg
  | some start =>
    match jsonParse (jsonSlice (cleaned.drop start)) with
    | some v => .ok v
    | none => .error parseFailMsg

/-! ## The full-analysis orchestrator (`safeGenerate` / `handleAnalyze`)

The seven generation calls are remote and asynchronous; each either resolves
with a payload or rejects, modelled as `Except`.  The payload shapes carry the
fields documented for them; their contents never influence the orchestration
(which only tests null-ness and, for the projection, emptiness). -/

/-- One data point of a projection scenario. -/
structure ProjectionPoint where
  timeLabel : Str
  value : Int
deriving DecidableEq

/-- One projection scenario. -/
structure ProjectionScenario where
  name : Str
  description : Str
  data : List ProjectionPoint
deriving DecidableEq

/-- One row of the comparison matrix. -/
structure ComparisonRow where
  optionName : Str
  isRecommended : Bool
  summary : Str
deriving DecidableEq

/-- The comparison matrix. -/
structure ComparisonData where
  criteria : List Str
  rows : List ComparisonRow
deriving DecidableEq

/-- The decision tree payload (the recursive root node plays no part in the
orchestration and is not modelled further). -/
structure DecisionTreeData where
  recommendation : Option Str
deriving DecidableEq

/-- One SWOT option. -/
structure SWOTOption where
  optionName : Str
  strengths : List Str
  weaknesses : List Str
  opportunities : List Str
  threats : List Str
deriving DecidableEq

/-- The SWOT payload. -/
structure SWOTAnalysis where
  options : List SWOTOption
  recommendedOption : Option Str
deriving DecidableEq

/-- The cost/benefit payload (per-option detail not needed by the
orchestration). -/
structure CostBenefitAnalysis where
  bestOption : Option Str
deriving DecidableEq

/-- The timeline payload. -/
structure TimelineData where
  timeHorizon : Str
deriving DecidableEq

/-- The visualization-related component state of the `App` component. -/
structure AppState where
  mindMapData : Option MindMapNode
  projectionData : List ProjectionScenario
  comparisonData : Option ComparisonData
  decisionTreeData : Option DecisionTreeData
  swotData : Option SWOTAnalysis
  costBenefitData : Option CostBenefitAnalysis
  timelineData : Option TimelineData
  isVisLoading : Bool
  visError : Option Str

/-- `safeGenerate`: await the promise, catching a rejection and returning
`null` instead of re-throwing. -/
def safeGenerate {α : Type} : Except Str α → Option α
  | .ok v => some v
  | .error _ => none

/-- The message of the error thrown when every generation failed. -/
def analyzeFailMsg : Str :=
  str "Could not generate analysis. Please try elaborating on your situation."

/-- `handleAnalyze`, given the already-settled outcomes of the seven
`safeGenerate` calls: below two messages nothing happens; otherwise either
every outcome is null/empty and only the error banner state changes, or the
seven data states are replaced by the outcomes and the error is cleared.
`setIsVisLoading(true)` followed by the `finally` leaves `isVisLoading`
`false` either way. -/
def handleAnalyze (messages : List Message) (st : AppState)
    (mapData : Option MindMapNode) (projData : Option (List ProjectionScenario))
    (compData : Option ComparisonData) (treeData : Option DecisionTreeData)
    (swotResult : Option SWOTAnalysis) (cbData : Option CostBenefitAnalysis)
    (tlData : Option TimelineData) : AppState :=
  if messages.length < 2 then st
  else
    let anySuccess := mapData.isSome ||
      (match projData with
        | some l => !l.isEmpty
        | none => false) ||
      compData.isSome || treeData.isSome || swotResult.isSome ||
      cbData.isSome || tlData.isSome
    if anySuccess then
      { st with
        mindMapData := mapData
        projectionData := projData.getD []
        comparisonData := compData
        decisionTreeData := treeData
        swotData := swotResult
        costBenefitData := cbData
        timelineData := tlData
        isVisLoading := false
        visError := none }
    else
      { st with isVisLoading := false, visError := some analyzeFailMsg }

/-- The name of an id-erased node. -/
def StripNode.sname : StripNode → Str
  | .mk nm _ _ _ _ => nm

/-- The kind of an id-erased node. -/
def StripNode.stype : StripNode → NodeType
  | .mk _ t _ _ _ => t


/-! ## Supporting lemmas -/

theorem natStrAux_congr (f g n : Nat) (hf : n < f) (hg : n < g) :
    natStrAux f n = natStrAux g n := by
  induction f using Nat.strong_induction_on generalizing g n with
  | _ f ih =>
    match f, g with
    | f' + 1, g' + 1 =>
      simp only [natStrAux]
      by_cases h10 : n < 10
      · simp [h10]
      · have hn0 : 0 < n := by omega
        have hd : n / 10 < n := Nat.div_lt_self hn0 (by omega)
        rw [if_neg h10, if_neg h10, ih f' (by omega) g' (n / 10) (by omega) (by omega)]

theorem charsToNat_append_digit (xs : Str) (c : Char) :
    charsToNat (xs ++ [c]) = charsToNat xs * 10 + (c.toNat - 48) := by
  simp [charsToNat, List.foldl_append]

theorem digitCh_toNat (d : Nat) (h : d < 10) : (digitCh d).toNat = 48 + d := by
  interval_cases d <;> rfl

theorem digitCh_isDigit (d : Nat) (h : d < 10) : isDigitCh (digitCh d) = true := by
  interval_cases d <;> rfl

theorem natStr_spec (n : Nat) :
    charsToNat (natStr n) = n ∧ natStr n ≠ [] ∧ ∀ c ∈ natStr n, isDigitCh c = true := by
  suffices h : ∀ f n, n < f → charsToNat (natStrAux f n) = n ∧ natStrAux f n ≠ [] ∧
      ∀ c ∈ natStrAux f n, isDigitCh c = true by
    exact h (n + 1) n (Nat.lt_succ_self n)
  intro f
  induction f using Nat.strong_induction_on with
  | _ f ih =>
    intro n hn
    match f with
    | f' + 1 =>
      simp only [natStrAux]
      by_cases h10 : n < 10
      · refine ⟨?_, by simp [h10], ?_⟩
        · simp [h10, charsToNat, digitCh_toNat n h10]
        · simp only [h10, if_pos, List.mem_singleton]
          rintro c rfl
          exact digitCh_isDigit n h10
      · have hn0 : 0 < n := by omega
        have hd : n / 10 < n := Nat.div_lt_self hn0 (by omega)
        have hrec := ih f' (by omega) (n / 10) (by omega)
        rw [if_neg h10]
        refine ⟨?_, by simp, ?_⟩
        · rw [charsToNat_append_digit, hrec.1, digitCh_toNat _ (Nat.mod_lt n (by omega))]
          omega
        · intro c hc
          rcases List.mem_append.mp hc with h | h
          · exact hrec.2.2 c h
          · rcases List.mem_singleton.mp h with rfl
            exact digitCh_isDigit _ (Nat.mod_lt n (by omega))

theorem charsToNat_natStr (n : Nat) : charsToNat (natStr n) = n := (natStr_spec n).1

theorem natStr_ne_nil (n : Nat) : natStr n ≠ [] := (natStr_spec n).2.1

theorem natStr_digits (n : Nat) : ∀ c ∈ natStr n, isDigitCh c = true := (natStr_spec n).2.2


theorem stripL_append (a b : List MindMapNode) :
    stripL (a ++ b) = stripL a ++ stripL b := by
  induction a with
  | nil => rfl
  | cons n l ih => simp [stripL, ih]

theorem stripL_length (l : List MindMapNode) : (stripL l).length = l.length := by
  induction l with
  | nil => rfl
  | cons n l ih => simp [stripL, ih]

theorem stripL_map_name (l : List MindMapNode) :
    (stripL l).map StripNode.sname = l.map MindMapNode.name := by
  induction l with
  | nil => rfl
  | cons n l ih => cases n; simp [stripL, stripN, StripNode.sname, MindMapNode.name, ih]

theorem stripL_map_type (l : List MindMapNode) :
    (stripL l).map StripNode.stype = l.map MindMapNode.type := by
  induction l with
  | nil => rfl
  | cons n l ih => cases n; simp [stripL, stripN, StripNode.stype, MindMapNode.type, ih]

theorem markFirstOption_find? :
    ∀ (cs : List MindMapNode) (o : MindMapNode),
      (markFirstOption cs).find? (fun n => n.type == .option) = some o →
      o.isRecommendation = true ∧ o.weight = 10 := by
  intro cs
  induction cs with
  | nil => intro o h; simp [markFirstOption, List.find?] at h
  | cons n rest ih =>
    intro o h
    by_cases hn : n.type == .option
    · rw [markFirstOption, if_pos hn] at h
      have hp : (promoteRec n).type == NodeType.option := by
        cases n; simpa [promoteRec, MindMapNode.type] using hn
      simp only [List.find?, hp] at h
      cases h
      cases n
      exact ⟨rfl, rfl⟩
    · rw [markFirstOption, if_neg hn] at h
      simp only [List.find?, Bool.not_eq_true] at hn
      simp only [List.find?, hn] at h
      exact ih o h

theorem markFirstOption_exists_rec :
    ∀ (cs : List MindMapNode),
      (∃ n ∈ markFirstOption cs, n.type = .option) →
      ∃ n ∈ markFirstOption cs, n.type = .option ∧ n.isRecommendation = true ∧
        n.weight = 10 := by
  intro cs
  induction cs with
  | nil => intro h; simp [markFirstOption] at h
  | cons n rest ih =>
    intro h
    by_cases hn : n.type == .option
    · rw [markFirstOption, if_pos hn]
      refine ⟨promoteRec n, List.mem_cons_self _ _, ?_, ?_, ?_⟩
      · cases n; simpa [promoteRec, MindMapNode.type] using hn
      · cases n; rfl
      · cases n; rfl
    · rw [markFirstOption, if_neg hn] at h ⊢
      rcases h with ⟨m, hm, hmt⟩
      rcases List.mem_cons.mp hm with rfl | hm2
      · exact absurd (by simp [hmt]) hn
      · rcases ih ⟨m, hm2, hmt⟩ with ⟨w, hw, hwp⟩
        exact ⟨w, List.mem_cons_of_mem _ hw, hwp⟩

theorem topicChildren_gen (topicTs : Nat) (msgTs : Nat → Nat) (messages : List Message) :
    ∃ cs, topicChildren (generateInstantMindMap topicTs msgTs messages) =
      markFirstOption cs := by
  match messages with
  | [] => exact ⟨[], rfl⟩
  | m :: ms =>
    rw [generateInstantMindMap]
    by_cases hm : (extractMainTopic ((m :: ms).filter fun x => x.role == .user)).isEmpty
    · rw [if_pos hm]; exact ⟨[], rfl⟩
    · rw [if_neg hm]
      exact ⟨_, rfl⟩

/-- C8: the Heuristic Extractor is a total synchronous function (its model is
a total Lean function), and on the empty message list it returns exactly the
minimal root node `{id: "root-instant", name: "Thought Space", kind: root,
weight: 10, children: []}`. -/
theorem c8_extract_empty (topicTs : Nat) (msgTs : Nat → Nat) :
    generateInstantMindMap topicTs msgTs [] =
      .mk (str "root-instant") (str "Thought Space") .root 10 false [] := rfl

/-- C3: the claim is right and the code is wrong.  The extractor's own comment
announces mining of bold-colon headers of the shape `**Something:**`, and the
spec promises a `con` node for `**Risk Factors:**`, but the regex
`/\*\*([^*]+)\*\*:/g` demands the colon after the closing asterisks, so the
documented input `**Risk Factors:** high competition` mines no node at all. -/
theorem c3_risk_factors_header_unmatched :
    extractFromAIMessage 0 0 (str "**Risk Factors:** high competition") = [] := rfl

/-- C1 counterexample: `[OPTIONS: A | B | C] [OPTIONS: A]` contains the
literal bracket list `[OPTIONS: A | B | C]`, yet extraction produces four
option nodes, not exactly three. -/
theorem c1_exactly_three_fails :
    ((extractFromAIMessage 0 0 (str "[OPTIONS: A | B | C] [OPTIONS: A]")).filter
      fun n => n.type == .option).length = 4 := by decide

/-- C2 counterexample: in `[OPTIONS: A | B] I recommend B` the
recommendation-phrase matcher (step 3e) promotes `B`, yet
`generateInstantMindMap` still forces the first option `A` to a
recommendation, so two sibling options carry `isRecommendation = true`. -/
theorem c2_two_recommendations :
    ((topicChildren (generateInstantMindMap 0 (fun _ => 0)
        [⟨.user, str "Hi"⟩, ⟨.model, str "[OPTIONS: A | B] I recommend B"⟩])).filter
      fun n => n.isRecommendation).length = 2 := by decide

/-- C2 as amended: whenever the mined sibling group contains an option node,
the first option node (in mining order) carries `isRecommendation = true` and
weight 10 — unconditionally, not only when step 3e found no recommendation —
so at least one recommended option always exists, but a step-3e promotion of a
different option yields two recommended siblings. -/
theorem c2_first_option_forced (topicTs : Nat) (msgTs : Nat → Nat)
    (messages : List Message) :
    (∀ o, (topicChildren (generateInstantMindMap topicTs msgTs messages)).find?
        (fun n => n.type == .option) = some o →
      o.isRecommendation = true ∧ o.weight = 10) ∧
    ((∃ n ∈ topicChildren (generateInstantMindMap topicTs msgTs messages),
        n.type = .option) →
      ∃ n ∈ topicChildren (generateInstantMindMap topicTs msgTs messages),
        n.type = .option ∧ n.isRecommendation = true ∧ n.weight = 10) := by
  obtain ⟨cs, hcs⟩ := topicChildren_gen topicTs msgTs messages
  rw [hcs]
  exact ⟨markFirstOption_find? cs, markFirstOption_exists_rec cs⟩

/-- C2 witness: on the two-message conversation of the counterexample the
forced first option exists, is an option, and has `isRecommendation` and
weight 10. -/
theorem c2_first_option_forced_witness :
    ∃ n ∈ topicChildren (generateInstantMindMap 0 (fun _ => 0)
        [⟨.user, str "Hi"⟩, ⟨.model, str "[OPTIONS: A | B] I recommend B"⟩]),
      n.type = .option ∧ n.isRecommendation = true ∧ n.weight = 10 :=
  (c2_first_option_forced 0 (fun _ => 0)
    [⟨.user, str "Hi"⟩, ⟨.model, str "[OPTIONS: A | B] I recommend B"⟩]).2
    (by decide)

/-- C4 counterexample: ids do not embed the message index, so when two
assistant messages are extracted within the same millisecond (`Date.now()`
returning 0 both times) both recommendation nodes get the id `rec-0`, and the
tree's ids are not pairwise distinct. -/
theorem c4_duplicate_ids_equal_timestamps :
    flatIds (generateInstantMindMap 0 (fun _ => 0)
        [⟨.user, str "Hi"⟩, ⟨.model, str "I recommend X"⟩,
         ⟨.model, str "I recommend X"⟩]) =
      [str "root-instant", str "topic-0", str "rec-0", str "rec-0"] ∧
    ¬ (flatIds (generateInstantMindMap 0 (fun _ => 0)
        [⟨.user, str "Hi"⟩, ⟨.model, str "I recommend X"⟩,
         ⟨.model, str "I recommend X"⟩])).Nodup := by
  have hT : generateInstantMindMap 0 (fun _ => 0)
      [⟨.user, str "Hi"⟩, ⟨.model, str "I recommend X"⟩,
       ⟨.model, str "I recommend X"⟩] =
      .mk (str "root-instant") (str "Thought Space") .root 10 false
        [.mk (str "topic-0") (str "Hi") .topic 8 false
          [.mk (str "rec-0") (str "X") .option 10 true [],
           .mk (str "rec-0") (str "X") .option 10 true []]] := rfl
  have hids : flatIds (generateInstantMindMap 0 (fun _ => 0)
      [⟨.user, str "Hi"⟩, ⟨.model, str "I recommend X"⟩,
       ⟨.model, str "I recommend X"⟩]) =
      [str "root-instant", str "topic-0", str "rec-0", str "rec-0"] := by
    rw [hT]
    simp [flatIds, flatIdsL]
  refine ⟨hids, ?_⟩
  rw [hids]
  decide

/-- C10: when every generation outcome is null (and the projection, if it
resolved at all, is empty), `handleAnalyze` throws before reaching the seven
`set...` calls, so all seven visualization data states keep their previous
values and only the error-message state is set. -/
theorem c10_total_failure_preserves_state (messages : List Message) (st : AppState)
    (projData : Option (List ProjectionScenario))
    (hlen : 2 ≤ messages.length)
    (hp : projData = none ∨ projData = some []) :
    (handleAnalyze messages st none projData none none none none none).mindMapData =
        st.mindMapData ∧
    (handleAnalyze messages st none projData none none none none none).projectionData =
        st.projectionData ∧
    (handleAnalyze messages st none projData none none none none none).comparisonData =
        st.comparisonData ∧
    (handleAnalyze messages st none projData none none none none none).decisionTreeData =
        st.decisionTreeData ∧
    (handleAnalyze messages st none projData none none none none none).swotData =
        st.swotData ∧
    (handleAnalyze messages st none projData none none none none none).costBenefitData =
        st.costBenefitData ∧
    (handleAnalyze messages st none projData none none none none none).timelineData =
        st.timelineData ∧
    (handleAnalyze messages st none projData none none none none none).visError =
        some analyzeFailMsg := by
  have hlt : ¬ messages.length < 2 := by omega
  rcases hp with rfl | rfl <;>
    simp [handleAnalyze, hlt]

/-- C10 witness: a concrete all-failed run on a two-message conversation. -/
theorem c10_total_failure_preserves_state_witness :
    (handleAnalyze [⟨.user, str "a"⟩, ⟨.model, str "b"⟩]
        ⟨some instantRoot, [], none, none, none, none, none, false, none⟩
        none none none none none none none).mindMapData = some instantRoot ∧
    (handleAnalyze [⟨.user, str "a"⟩, ⟨.model, str "b"⟩]
        ⟨some instantRoot, [], none, none, none, none, none, false, none⟩
        none none none none none none none).visError = some analyzeFailMsg :=
  ⟨(c10_total_failure_preserves_state _ _ none (by decide) (Or.inl rfl)).1,
   (c10_total_failure_preserves_state _ _ none (by decide) (Or.inl rfl)).2.2.2.2.2.2.2⟩

/-- C7: each generation failure is absorbed by `safeGenerate` (a rejection
becomes `null`, never a re-throw), and `handleAnalyze` reports its
user-visible error exactly when every one of the parallel structuring calls
failed or returned empty; when at least one succeeded, the error is cleared
and each data state is set from its own outcome (`null`/empty for the
others). -/
theorem c7_orchestrator_error_iff_all_failed (messages : List Message) (st : AppState)
    (r1 : Except Str MindMapNode) (r2 : Except Str (List ProjectionScenario))
    (r3 : Except Str ComparisonData) (r4 : Except Str DecisionTreeData)
    (r5 : Except Str SWOTAnalysis) (r6 : Except Str CostBenefitAnalysis)
    (r7 : Except Str TimelineData)
    (hlen : 2 ≤ messages.length) :
    (∀ e : Str, safeGenerate (α := MindMapNode) (.error e) = none) ∧
    ((handleAnalyze messages st (safeGenerate r1) (safeGenerate r2) (safeGenerate r3)
        (safeGenerate r4) (safeGenerate r5) (safeGenerate r6) (safeGenerate r7)).visError =
        some analyzeFailMsg ↔
      (safeGenerate r1 = none ∧
        (safeGenerate r2 = none ∨ safeGenerate r2 = some []) ∧
        safeGenerate r3 = none ∧ safeGenerate r4 = none ∧ safeGenerate r5 = none ∧
        safeGenerate r6 = none ∧ safeGenerate r7 = none)) ∧
    (¬ (safeGenerate r1 = none ∧
        (safeGenerate r2 = none ∨ safeGenerate r2 = some []) ∧
        safeGenerate r3 = none ∧ safeGenerate r4 = none ∧ safeGenerate r5 = none ∧
        safeGenerate r6 = none ∧ safeGenerate r7 = none) →
      (handleAnalyze messages st (safeGenerate r1) (safeGenerate r2) (safeGenerate r3)
          (safeGenerate r4) (safeGenerate r5) (safeGenerate r6)
          (safeGenerate r7)).visError = none ∧
      (handleAnalyze messages st (safeGenerate r1) (safeGenerate r2) (safeGenerate r3)
          (safeGenerate r4) (safeGenerate r5) (safeGenerate r6)
          (safeGenerate r7)).mindMapData = safeGenerate r1 ∧
      (handleAnalyze messages st (safeGenerate r1) (safeGenerate r2) (safeGenerate r3)
          (safeGenerate r4) (safeGenerate r5) (safeGenerate r6)
          (safeGenerate r7)).projectionData = (safeGenerate r2).getD [] ∧
      (handleAnalyze messages st (safeGenerate r1) (safeGenerate r2) (safeGenerate r3)
          (safeGenerate r4) (safeGenerate r5) (safeGenerate r6)
          (safeGenerate r7)).comparisonData = safeGenerate r3 ∧
      (handleAnalyze messages st (safeGenerate r1) (safeGenerate r2) (safeGenerate r3)
          (safeGenerate r4) (safeGenerate r5) (safeGenerate r6)
          (safeGenerate r7)).decisionTreeData = safeGenerate r4 ∧
      (handleAnalyze messages st (safeGenerate r1) (safeGenerate r2) (safeGenerate r3)
          (safeGenerate r4) (safeGenerate r5) (safeGenerate r6)
          (safeGenerate r7)).swotData = safeGenerate r5 ∧
      (handleAnalyze messages st (safeGenerate r1) (safeGenerate r2) (safeGenerate r3)
          (safeGenerate r4) (safeGenerate r5) (safeGenerate r6)
          (safeGenerate r7)).costBenefitData = safeGenerate r6 ∧
      (handleAnalyze messages st (safeGenerate r1) (safeGenerate r2) (safeGenerate r3)
          (safeGenerate r4) (safeGenerate r5) (safeGenerate r6)
          (safeGenerate r7)).timelineData = safeGenerate r7) := by
  have hlt : ¬ messages.length < 2 := by omega
  refine ⟨fun e => rfl, ?_, ?_⟩
  · generalize safeGenerate r1 = o1
    generalize safeGenerate r2 = o2
    generalize safeGenerate r3 = o3
    generalize safeGenerate r4 = o4
    generalize safeGenerate r5 = o5
    generalize safeGenerate r6 = o6
    generalize safeGenerate r7 = o7
    rcases o1 with _ | v1 <;> rcases o3 with _ | v3 <;> rcases o4 with _ | v4 <;>
      rcases o5 with _ | v5 <;> rcases o6 with _ | v6 <;> rcases o7 with _ | v7 <;>
      (try rcases o2 with _ | (_ | ⟨p, l⟩)) <;>
      simp [handleAnalyze, hlt, analyzeFailMsg, parseFailMsg]
  · generalize safeGenerate r1 = o1
    generalize safeGenerate r2 = o2
    generalize safeGenerate r3 = o3
    generalize safeGenerate r4 = o4
    generalize safeGenerate r5 = o5
    generalize safeGenerate r6 = o6
    generalize safeGenerate r7 = o7
    intro hs
    rcases o1 with _ | v1 <;> rcases o3 with _ | v3 <;> rcases o4 with _ | v4 <;>
      rcases o5 with _ | v5 <;> rcases o6 with _ | v6 <;> rcases o7 with _ | v7 <;>
      (try rcases o2 with _ | (_ | ⟨p, l⟩)) <;>
      simp_all [handleAnalyze, if_neg hlt]

/-- C7 witness: with exactly one of the seven calls resolving (the mind map)
and the six others rejecting, the aggregate result is non-error and the
resolved field is populated. -/
theorem c7_orchestrator_error_iff_all_failed_witness :
    (handleAnalyze [⟨.user, str "a"⟩, ⟨.model, str "b"⟩]
        ⟨none, [], none, none, none, none, none, false, none⟩
        (safeGenerate (.ok instantRoot)) (safeGenerate (.error (str "x")))
        (safeGenerate (.error (str "x"))) (safeGenerate (.error (str "x")))
        (safeGenerate (.error (str "x"))) (safeGenerate (.error (str "x")))
        (safeGenerate (.error (str "x")))).visError = none ∧
    (handleAnalyze [⟨.user, str "a"⟩, ⟨.model, str "b"⟩]
        ⟨none, [], none, none, none, none, none, false, none⟩
        (safeGenerate (.ok instantRoot)) (safeGenerate (.error (str "x")))
        (safeGenerate (.error (str "x"))) (safeGenerate (.error (str "x")))
        (safeGenerate (.error (str "x"))) (safeGenerate (.error (str "x")))
        (safeGenerate (.error (str "x")))).mindMapData = some instantRoot := by
  have h := (c7_orchestrator_error_iff_all_failed
      [⟨.user, str "a"⟩, ⟨.model, str "b"⟩]
      ⟨none, [], none, none, none, none, none, false, none⟩
      (.ok instantRoot) (.error (str "x")) (.error (str "x")) (.error (str "x"))
      (.error (str "x")) (.error (str "x")) (.error (str "x"))
      (by decide)).2.2 (fun hc => by simpa [safeGenerate] using hc.1)
  exact ⟨h.1, h.2.1⟩

theorem flattenNodes_phys (t : MindMapNode) :
    ∀ n ∈ flattenNodes t, n.x = none ∧ n.y = none ∧ n.vx = none ∧ n.vy = none := by
  refine @flattenNodes.induct
    (fun t => ∀ n ∈ flattenNodes t,
      n.x = none ∧ n.y = none ∧ n.vx = none ∧ n.vy = none)
    (fun l => ∀ n ∈ flattenNodesL l,
      n.x = none ∧ n.y = none ∧ n.vx = none ∧ n.vy = none)
    ?_ ?_ ?_ t
  · intro i nm ty w r ch ih n hn
    rw [flattenNodes] at hn
    rcases List.mem_cons.mp hn with rfl | hm
    · exact ⟨rfl, rfl, rfl, rfl⟩
    · exact ih n hm
  · intro n hn
    simp [flattenNodesL] at hn
  · intro m rest ih1 ih2 n hn
    rw [flattenNodesL] at hn
    rcases List.mem_append.mp hn with h | h
    · exact ih1 n h
    · exact ih2 n h

theorem lookupLast_eq_some (prev : List SimNode) (old : SimNode) (i : Str)
    (hold : old ∈ prev) (hid : old.id = i) (hne : i ≠ [])
    (huniq : ∀ o ∈ prev, o.id = i → o = old) :
    lookupLast prev i = some old := by
  unfold lookupLast
  cases hfind : ((prev.filter fun n => !n.id.isEmpty).reverse).find?
      (fun n => n.id == i) with
  | none =>
    exfalso
    have hmem : old ∈ (prev.filter fun n => !n.id.isEmpty).reverse := by
      rw [List.mem_reverse, List.mem_filter]
      exact ⟨hold, by simp [hid, hne]⟩
    have := List.find?_eq_none.mp hfind old hmem
    simp [hid] at this
  | some w =>
    have hw1 := List.find?_some hfind
    have hw2 : w ∈ (prev.filter fun n => !n.id.isEmpty).reverse :=
      List.mem_of_find?_eq_some hfind
    have hw3 : w ∈ prev := (List.mem_filter.mp (List.mem_reverse.mp hw2)).1
    rw [huniq w hw3 (by simpa using hw1)]

theorem lookupLast_eq_none (prev : List SimNode) (i : Str)
    (h : ∀ o ∈ prev, o.id ≠ i) : lookupLast prev i = none := by
  unfold lookupLast
  rw [List.find?_eq_none]
  intro x hx
  have hx2 : x ∈ prev := (List.mem_filter.mp (List.mem_reverse.mp hx)).1
  simp [h x hx2]

/-- C5: reconciliation of a new flattened node list against the previous
working set.  A new node whose (non-empty) id has a unique previous
counterpart receives exactly that node's `x, y, vx, vy`; a node whose id
matches no previous node passes through unchanged, and flattening gives every
node an undefined position, so unseen nodes start with undefined positions; a
previous node whose id is absent from the new list lands in the exit
selection (flagged for removal) rather than being dropped silently. -/
theorem c5_reconciliation :
    (∀ (prev new : List SimNode) (i : Nat) (nd old : SimNode),
      new.get? i = some nd → nd.id ≠ [] → old ∈ prev → old.id = nd.id →
      (∀ o ∈ prev, o.id = nd.id → o = old) →
      (mergeNodes prev new).get? i =
        some { nd with x := old.x, y := old.y, vx := old.vx, vy := old.vy }) ∧
    (∀ (prev new : List SimNode) (i : Nat) (nd : SimNode),
      new.get? i = some nd → (∀ o ∈ prev, o.id ≠ nd.id) →
      (mergeNodes prev new).get? i = some nd) ∧
    (∀ (t : MindMapNode) (n : SimNode), n ∈ flattenNodes t →
      n.x = none ∧ n.y = none ∧ n.vx = none ∧ n.vy = none) ∧
    (∀ (prev new : List SimNode) (p : SimNode), p ∈ prev →
      (∀ n ∈ new, n.id ≠ p.id) → p ∈ exitNodes prev new) := by
  refine ⟨?_, ?_, flattenNodes_phys, ?_⟩
  · intro prev new i nd old hget hne hold hid huniq
    unfold mergeNodes
    rw [List.get?_map, hget]
    have hemp : nd.id.isEmpty = false := by
      cases hi : nd.id with
      | nil => exact absurd hi hne
      | cons a l => simp
    simp only [Option.map_some']
    rw [if_neg (by simp [hemp]), lookupLast_eq_some prev old nd.id hold hid hne huniq]
  · intro prev new i nd hget hnone
    unfold mergeNodes
    rw [List.get?_map, hget]
    simp only [Option.map_some']
    by_cases hemp : nd.id.isEmpty
    · rw [if_pos hemp]
    · rw [if_neg hemp, lookupLast_eq_none prev nd.id hnone]
  · intro prev new p hp hnone
    unfold exitNodes
    rw [List.mem_filter]
    refine ⟨hp, ?_⟩
    simp only [Bool.not_eq_eq_eq_not, Bool.not_true, List.any_eq_false]
    intro n hn
    simp [hnone n hn]

/-- C5 witness: a one-node reconciliation carrying forward the previous
position and velocity exactly. -/
theorem c5_reconciliation_witness :
    (mergeNodes
        [⟨str "a", str "A", .option, 5, false, some 3, some 4, some 1, some 2⟩]
        [⟨str "a", str "A", .option, 7, false, none, none, none, none⟩]).get? 0 =
      some ⟨str "a", str "A", .option, 7, false, some 3, some 4, some 1, some 2⟩ :=
  c5_reconciliation.1
    [⟨str "a", str "A", .option, 5, false, some 3, some 4, some 1, some 2⟩]
    [⟨str "a", str "A", .option, 7, false, none, none, none, none⟩]
    0
    ⟨str "a", str "A", .option, 7, false, none, none, none, none⟩
    ⟨str "a", str "A", .option, 5, false, some 3, some 4, some 1, some 2⟩
    rfl (by decide) (by decide) rfl (by decide)

/-- C6: the decoder strips code fences, locates the structural start (the
earlier of the first `{` and the first `[`; a tie is impossible, so "ties
favor `{`" holds vacuously) and the structural end (the later of the last `}`
and the last `]`), and JSON-decodes the slice, with every failure — no
structural start, or an undecodable slice — surfacing as the caught parse
error.  In particular the fenced example decodes to the object with `a ↦ 1`
and `no json here` raises the parse error. -/
theorem c6_decoder :
    (∀ t : Str, idxOf (stripFences t) '{' = none → idxOf (stripFences t) '[' = none →
      cleanAndParseJSON t = .error parseFailMsg) ∧
    (∀ (t : Str) (s : Nat), jsonStart (stripFences t) = some s →
      cleanAndParseJSON t =
        match jsonParse (jsonSlice ((stripFences t).drop s)) with
        | some v => .ok v
        | none => .error parseFailMsg) ∧
    cleanAndParseJSON (str "Sure! ```json\n\x7b\"a\":1\x7d\n``` thanks") =
      .ok (Json.obj [(str "a", Json.num (str "1"))]) ∧
    cleanAndParseJSON (str "no json here") = .error parseFailMsg := by
  refine ⟨?_, ?_, rfl, rfl⟩
  · intro t h1 h2
    unfold cleanAndParseJSON
    simp only [jsonStart, h1, h2]
  · intro t s hs
    unfold cleanAndParseJSON
    simp only [hs]

/-- C6 witness: a fence-free text with no `{` or `[` raises the parse
error. -/
theorem c6_decoder_witness :
    cleanAndParseJSON (str "zzz") = .error parseFailMsg :=
  c6_decoder.1 (str "zzz") (by decide) (by decide)

theorem stripL_eq_map (l : List MindMapNode) : stripL l = l.map stripN := by
  induction l with
  | nil => rfl
  | cons n l ih => simp [stripL, ih]

theorem any_name_eq (p : Str → Bool) :
    ∀ (acc acc' : List MindMapNode),
      acc.map MindMapNode.name = acc'.map MindMapNode.name →
      (acc.any fun n => p n.name) = (acc'.any fun n => p n.name) := by
  intro acc
  induction acc with
  | nil =>
    intro acc' h
    rw [List.map_nil] at h
    rw [List.eq_nil_of_map_eq_nil h.symm]
  | cons a as ih =>
    intro acc' h
    cases acc' with
    | nil => simp at h
    | cons b bs =>
      simp only [List.map_cons, List.cons.injEq] at h
      simp only [List.any_cons, h.1, ih bs h.2]

theorem findIdx_name_eq (p : Str → Bool) :
    ∀ (acc acc' : List MindMapNode) (k : Nat),
      acc.map MindMapNode.name = acc'.map MindMapNode.name →
      List.findIdx? (fun n => p n.name) acc k =
        List.findIdx? (fun n => p n.name) acc' k := by
  intro acc
  induction acc with
  | nil =>
    intro acc' k h
    rw [List.map_nil] at h
    rw [List.eq_nil_of_map_eq_nil h.symm]
  | cons a as ih =>
    intro acc' k h
    cases acc' with
    | nil => simp at h
    | cons b bs =>
      simp only [List.map_cons, List.cons.injEq] at h
      simp only [List.findIdx?, h.1, ih bs (k + 1) h.2]

theorem names_of_stripL (acc acc' : List MindMapNode)
    (h : stripL acc = stripL acc') :
    acc.map MindMapNode.name = acc'.map MindMapNode.name := by
  rw [← stripL_map_name, ← stripL_map_name, h]

theorem stripN_congr_promoteRec (a b : MindMapNode) (h : stripN a = stripN b) :
    stripN (promoteRec a) = stripN (promoteRec b) := by
  cases a
  cases b
  simp only [stripN, promoteRec, StripNode.mk.injEq] at h ⊢
  exact ⟨h.1, h.2.1, trivial, trivial, h.2.2.2.2⟩

theorem updateAt_promote_strip :
    ∀ (i : Nat) (acc acc' : List MindMapNode), stripL acc = stripL acc' →
      stripL (updateAt i promoteRec acc) = stripL (updateAt i promoteRec acc') := by
  intro i
  induction i with
  | zero =>
    intro acc acc' h
    cases acc with
    | nil =>
      cases acc' with
      | nil => rfl
      | cons b bs => simp [stripL] at h
    | cons a as =>
      cases acc' with
      | nil => simp [stripL] at h
      | cons b bs =>
        simp only [stripL, List.cons.injEq] at h
        simp only [updateAt, stripL, List.cons.injEq]
        exact ⟨stripN_congr_promoteRec a b h.1, h.2⟩
  | succ j ih =>
    intro acc acc' h
    cases acc with
    | nil =>
      cases acc' with
      | nil => rfl
      | cons b bs => simp [stripL] at h
    | cons a as =>
      cases acc' with
      | nil => simp [stripL] at h
      | cons b bs =>
        simp only [stripL, List.cons.injEq] at h
        simp only [updateAt, stripL, List.cons.injEq]
        exact ⟨h.1, ih as bs h.2⟩

theorem foldl_strip_cong {β : Type} (f g : List MindMapNode → β → List MindMapNode)
    (h : ∀ acc acc' b, stripL acc = stripL acc' → stripL (f acc b) = stripL (g acc' b)) :
    ∀ (l : List β) (acc acc' : List MindMapNode), stripL acc = stripL acc' →
      stripL (l.foldl f acc) = stripL (l.foldl g acc') := by
  intro l
  induction l with
  | nil => intro acc acc' hh; simpa using hh
  | cons b bs ih =>
    intro acc acc' hh
    simp only [List.foldl_cons]
    exact ih _ _ (h _ _ b hh)

theorem flatMap_strip {β : Type} (l : List β) (f g : β → List MindMapNode)
    (h : ∀ b ∈ l, stripL (f b) = stripL (g b)) :
    stripL (l.flatMap f) = stripL (l.flatMap g) := by
  induction l with
  | nil => rfl
  | cons b bs ih =>
    simp only [List.flatMap_cons, stripL_append]
    rw [h b (List.mem_cons_self b bs), ih fun x hx => h x (List.mem_cons_of_mem b hx)]

theorem optionNodes_strip (ts ts' : Nat) (text : Str) :
    stripL (optionNodes ts text) = stripL (optionNodes ts' text) := by
  unfold optionNodes
  apply flatMap_strip
  intro im _
  rw [stripL_eq_map, stripL_eq_map, List.map_map, List.map_map]
  apply List.map_congr_left
  intro cj _
  simp [Function.comp, stripN, mkNode, stripL]

theorem addBold_strip (ts ts' : Nat) (acc acc' : List MindMapNode) (im : Nat × Str)
    (h : stripL acc = stripL acc') :
    stripL (addBold ts acc im) = stripL (addBold ts' acc' im) := by
  simp only [addBold]
  have hany : (acc.any fun n => n.name == boldLabel im.2) =
      (acc'.any fun n => n.name == boldLabel im.2) :=
    any_name_eq (fun nm => nm == boldLabel im.2) acc acc' (names_of_stripL _ _ h)
  rw [← hany]
  by_cases hc : ((boldLabel im.2).length < 40 &&
      !(acc.any fun n => n.name == boldLabel im.2)) = true
  · rw [if_pos hc, if_pos hc, stripL_append, stripL_append, h]
    simp [stripL, stripN, mkNode]
  · rw [if_neg hc, if_neg hc]
    exact h

theorem addBullet_strip (ts ts' : Nat) (acc acc' : List MindMapNode) (itemRaw : Str)
    (h : stripL acc = stripL acc') :
    stripL (addBullet ts acc itemRaw) = stripL (addBullet ts' acc' itemRaw) := by
  simp only [addBullet]
  have hany : (acc.any fun n => n.name == jsTrim itemRaw) =
      (acc'.any fun n => n.name == jsTrim itemRaw) :=
    any_name_eq (fun nm => nm == jsTrim itemRaw) acc acc' (names_of_stripL _ _ h)
  rw [← hany]
  by_cases hc : (decide (wordCount (jsTrim itemRaw) ≤ 5) &&
      !(acc.any fun n => n.name == jsTrim itemRaw)) = true
  · rw [if_pos hc, if_pos hc, stripL_append, stripL_append, h]
    simp [stripL, stripN, mkNode]
  · rw [if_neg hc, if_neg hc]
    exact h

theorem addNum_strip (ts ts' : Nat) (acc acc' : List MindMapNode) (itemRaw : Str)
    (h : stripL acc = stripL acc') :
    stripL (addNum ts acc itemRaw) = stripL (addNum ts' acc' itemRaw) := by
  simp only [addNum]
  have hany : (acc.any fun n => n.name == jsTrim (removeAll (str "**") itemRaw)) =
      (acc'.any fun n => n.name == jsTrim (removeAll (str "**") itemRaw)) :=
    any_name_eq (fun nm => nm == jsTrim (removeAll (str "**") itemRaw)) acc acc'
      (names_of_stripL _ _ h)
  rw [← hany]
  by_cases hc : (decide (wordCount (jsTrim (removeAll (str "**") itemRaw)) ≤ 6) &&
      !(acc.any fun n => n.name == jsTrim (removeAll (str "**") itemRaw))) = true
  · rw [if_pos hc, if_pos hc, stripL_append, stripL_append, h]
    simp [stripL, stripN, mkNode]
  · rw [if_neg hc, if_neg hc]
    exact h

theorem applyRec_strip (ts ts' : Nat) (text : Str) (acc acc' : List MindMapNode)
    (h : stripL acc = stripL acc') :
    stripL (applyRec ts text acc) = stripL (applyRec ts' text acc') := by
  cases hr : recFind text with
  | none => simp only [applyRec, hr]; exact h
  | some cap =>
    simp only [applyRec, hr]
    by_cases he : ((jsTrim (removeAll (str "**") cap)).take 40).isEmpty = true
    · rw [if_pos he, if_pos he]
      exact h
    · rw [if_neg he, if_neg he]
      have hidx : List.findIdx?
          (recMatches ((jsTrim (removeAll (str "**") cap)).take 40)) acc =
          List.findIdx?
          (recMatches ((jsTrim (removeAll (str "**") cap)).take 40)) acc' :=
        findIdx_name_eq
          (fun nm =>
            containsSub (((jsTrim (removeAll (str "**") cap)).take 40).map asciiLower)
                (nm.map asciiLower) ||
              containsSub (nm.map asciiLower)
                (((jsTrim (removeAll (str "**") cap)).take 40).map asciiLower))
          acc acc' 0 (names_of_stripL _ _ h)
      rw [← hidx]
      cases hi : List.findIdx?
          (recMatches ((jsTrim (removeAll (str "**") cap)).take 40)) acc with
      | none =>
        rw [stripL_append, stripL_append, h]
        simp [stripL, stripN]
      | some i =>
        exact updateAt_promote_strip i acc acc' h

theorem extractFromAIMessage_strip (ts ts' mi mi' : Nat) (text : Str) :
    stripL (extractFromAIMessage ts mi text) =
      stripL (extractFromAIMessage ts' mi' text) := by
  unfold extractFromAIMessage
  apply applyRec_strip
  apply foldl_strip_cong (addNum ts) (addNum ts') (addNum_strip ts ts')
  apply foldl_strip_cong (addBullet ts) (addBullet ts') (addBullet_strip ts ts')
  apply foldl_strip_cong (addBold ts) (addBold ts') (addBold_strip ts ts')
  exact optionNodes_strip ts ts' text

theorem type_of_stripN (a b : MindMapNode) (h : stripN a = stripN b) :
    a.type = b.type := by
  cases a
  cases b
  simp only [stripN, StripNode.mk.injEq] at h
  simpa [MindMapNode.type] using h.2.1

theorem markFirstOption_strip :
    ∀ (acc acc' : List MindMapNode), stripL acc = stripL acc' →
      stripL (markFirstOption acc) = stripL (markFirstOption acc') := by
  intro acc
  induction acc with
  | nil =>
    intro acc' h
    cases acc' with
    | nil => rfl
    | cons b bs => simp [stripL] at h
  | cons a as ih =>
    intro acc' h
    cases acc' with
    | nil => simp [stripL] at h
    | cons b bs =>
      simp only [stripL, List.cons.injEq] at h
      have htype : a.type = b.type := type_of_stripN a b h.1
      by_cases ha : (a.type == NodeType.option) = true
      · rw [markFirstOption, if_pos ha, markFirstOption, if_pos (by rw [← htype]; exact ha)]
        simp only [stripL, List.cons.injEq]
        exact ⟨stripN_congr_promoteRec a b h.1, h.2⟩
      · rw [markFirstOption, if_neg ha, markFirstOption, if_neg (by rw [← htype]; exact ha)]
        simp only [stripL, List.cons.injEq]
        exact ⟨h.1, ih bs h.2⟩

/-- C9: extraction is deterministic up to ids — running it twice on the same
message list, with arbitrary (e.g. different) `Date.now()` values observed by
each run, yields trees that agree on every node's name, kind and weight and on
the nesting and child order; the clock influences nothing but the synthesized
ids. -/
theorem c9_extraction_id_independent (t1 t2 : Nat) (m1 m2 : Nat → Nat)
    (messages : List Message) :
    stripN (generateInstantMindMap t1 m1 messages) =
      stripN (generateInstantMindMap t2 m2 messages) := by
  cases messages with
  | nil => rfl
  | cons m ms =>
    unfold generateInstantMindMap
    by_cases hm : (extractMainTopic
        (List.filter (fun x => x.role == .user) (m :: ms))).isEmpty = true
    · rw [if_pos hm, if_pos hm]
    · rw [if_neg hm, if_neg hm]
      have hch : stripL (markFirstOption
          ((List.filter (fun x => x.role == .model) (m :: ms)).enum.flatMap fun im =>
            extractFromAIMessage (m1 im.1) im.1 im.2.text)) =
          stripL (markFirstOption
          ((List.filter (fun x => x.role == .model) (m :: ms)).enum.flatMap fun im =>
            extractFromAIMessage (m2 im.1) im.1 im.2.text)) := by
        apply markFirstOption_strip
        apply flatMap_strip
        intro im _
        exact extractFromAIMessage_strip (m1 im.1) (m2 im.1) im.1 im.1 im.2.text
      simp only [stripN, stripL]
      rw [hch]

theorem takeWhile_append_all (p : Char → Bool) :
    ∀ (xs ys : Str), (∀ c ∈ xs, p c = true) →
      (xs ++ ys).takeWhile p = xs ++ ys.takeWhile p := by
  intro xs
  induction xs with
  | nil => intro ys h; rfl
  | cons a as ih =>
    intro ys h
    simp only [List.cons_append, List.takeWhile_cons,
      h a (List.mem_cons_self a as), if_true]
    rw [ih ys fun c hc => h c (List.mem_cons_of_mem a hc)]

theorem takeWhile_eq_self_of_stop (p : Char → Bool) (xs ys : Str)
    (h1 : ∀ c ∈ xs, p c = true)
    (h2 : ys = [] ∨ ∃ d ds, ys = d :: ds ∧ p d = false) :
    (xs ++ ys).takeWhile p = xs := by
  rw [takeWhile_append_all p xs ys h1]
  rcases h2 with rfl | ⟨d, ds, rfl, hd⟩
  · simp
  · simp [List.takeWhile_cons, hd]

theorem parsePartsAux_render :
    ∀ (ps : List Nat) (f : Nat),
      (ps.flatMap fun n => '-' :: natStr n).length ≤ f →
      parsePartsAux f (ps.flatMap fun n => '-' :: natStr n) = some ps := by
  intro ps
  induction ps with
  | nil => intro f _; cases f <;> rfl
  | cons n ps ih =>
    intro f hf
    simp only [List.flatMap_cons, List.cons_append] at hf ⊢
    match f with
    | 0 => simp at hf
    | f' + 1 =>
      have hds : (natStr n ++ ps.flatMap fun n => '-' :: natStr n).takeWhile isDigitCh =
          natStr n := by
        apply takeWhile_eq_self_of_stop _ _ _ (natStr_digits n)
        cases hps : ps.flatMap fun n => '-' :: natStr n with
        | nil => exact Or.inl rfl
        | cons d ds =>
          refine Or.inr ⟨d, ds, rfl, ?_⟩
          cases ps with
          | nil => simp at hps
          | cons m ms =>
            simp only [List.flatMap_cons, List.cons_append, List.cons.injEq] at hps
            rw [← hps.1]
            rfl
      rw [parsePartsAux]
      simp only [hds]
      rw [if_neg (by simp [natStr_ne_nil n])]
      have hdrop : (natStr n ++ ps.flatMap fun n => '-' :: natStr n).drop
          (natStr n).length = ps.flatMap fun n => '-' :: natStr n :=
        List.drop_left _ _
      have hlen : (ps.flatMap fun n => '-' :: natStr n).length ≤ f' := by
        simp only [List.length_cons, List.length_append] at hf
        omega
      rw [hdrop, ih f' hlen, charsToNat_natStr]

theorem parseId_mkId (tag : Str) (ps : List Nat)
    (htag : ∀ c ∈ tag, isLowerCh c = true) :
    parseId (mkId tag ps) = some (tag, ps) := by
  unfold parseId mkId
  have htake : (tag ++ ps.flatMap fun n => '-' :: natStr n).takeWhile isLowerCh = tag := by
    apply takeWhile_eq_self_of_stop _ _ _ htag
    cases ps with
    | nil => exact Or.inl rfl
    | cons n ns =>
      exact Or.inr ⟨'-', natStr n ++ ns.flatMap fun m => '-' :: natStr m,
        by simp [List.flatMap_cons], rfl⟩
  simp only [htake]
  rw [List.drop_left]
  rw [parsePartsAux_render ps _ (by simp)]

theorem mkId_inj (tag tag' : Str) (ps ps' : List Nat)
    (htag : ∀ c ∈ tag, isLowerCh c = true) (htag' : ∀ c ∈ tag', isLowerCh c = true)
    (h : mkId tag ps = mkId tag' ps') : tag = tag' ∧ ps = ps' := by
  have h1 := parseId_mkId tag ps htag
  have h2 := parseId_mkId tag' ps' htag'
  rw [h, h2] at h1
  cases h1
  exact ⟨rfl, rfl⟩

theorem mkId_ne_nil (tag : Str) (ps : List Nat) (h : tag ≠ []) : mkId tag ps ≠ [] := by
  unfold mkId
  cases tag with
  | nil => exact absurd rfl h
  | cons c cs => simp

theorem optionTag_lower : ∀ c ∈ str "option", isLowerCh c = true := by decide

theorem boldTag_lower : ∀ c ∈ str "bold", isLowerCh c = true := by decide

theorem bulletTag_lower : ∀ c ∈ str "bullet", isLowerCh c = true := by decide

theorem numTag_lower : ∀ c ∈ str "num", isLowerCh c = true := by decide

theorem recTag_lower : ∀ c ∈ str "rec", isLowerCh c = true := by decide

theorem topicTag_lower : ∀ c ∈ str "topic", isLowerCh c = true := by decide

theorem optionIds_block_pairwise (ts i : Nat) (xs : List Str) :
    ∀ k, ((List.enumFrom k xs).map fun cj =>
      mkId (str "option") [ts, i, cj.1]).Pairwise (· ≠ ·) := by
  induction xs with
  | nil => intro k; simp
  | cons x xs ih =>
    intro k
    simp only [List.enumFrom, List.map_cons]
    refine List.Pairwise.cons ?_ (ih (k + 1))
    intro b hb heq
    rcases List.mem_map.mp hb with ⟨cj, hcj, rfl⟩
    have hge : k + 1 ≤ cj.1 := by
      rcases cj with ⟨j, y⟩
      exact (List.mem_enumFrom hcj).1
    have := (mkId_inj _ _ _ _ optionTag_lower optionTag_lower heq).2
    simp only [List.cons.injEq] at this
    omega

theorem optionIds_blocks_pairwise (ts : Nat) :
    ∀ (L : List (Nat × Str)), (L.map Prod.fst).Nodup →
      (L.flatMap fun im => ((optionChoices im.2).enum).map fun cj =>
        mkId (str "option") [ts, im.1, cj.1]).Pairwise (· ≠ ·) := by
  intro L
  induction L with
  | nil => intro _; simp
  | cons hd L ih =>
    intro hnd
    simp only [List.map_cons, List.nodup_cons] at hnd
    rw [List.flatMap_cons, List.pairwise_append]
    refine ⟨?_, ih hnd.2, ?_⟩
    · rw [List.enum_eq_enumFrom]
      exact optionIds_block_pairwise ts hd.1 (optionChoices hd.2) 0
    · intro a ha b hb heq
      rcases List.mem_map.mp ha with ⟨cj, _, rfl⟩
      rcases List.mem_flatMap.mp hb with ⟨im, him, hbm⟩
      rcases List.mem_map.mp hbm with ⟨cj', _, rfl⟩
      have := (mkId_inj _ _ _ _ optionTag_lower optionTag_lower heq).2
      simp only [List.cons.injEq] at this
      refine hnd.1 ?_
      rw [this.2.1]
      exact List.mem_map.mpr ⟨im, him, rfl⟩

theorem optionNodes_map_id (ts : Nat) (text : Str) :
    (optionNodes ts text).map MindMapNode.id =
      (optionsMatches text).enum.flatMap fun im =>
        ((optionChoices im.2).enum).map fun cj =>
          mkId (str "option") [ts, im.1, cj.1] := by
  unfold optionNodes
  rw [List.map_flatMap]
  simp only [List.map_map]
  rfl

theorem enum_fst_nodup {α : Type} (l : List α) : (l.enum.map Prod.fst).Nodup := by
  rw [List.enum_map_fst]
  exact List.nodup_range l.length

theorem optionNodes_spec (ts : Nat) (text : Str) :
    ((optionNodes ts text).map MindMapNode.id).Pairwise (· ≠ ·) ∧
    ∀ n ∈ optionNodes ts text,
      (∃ i j, n.id = mkId (str "option") [ts, i, j]) ∧ n.children = [] := by
  constructor
  · rw [optionNodes_map_id]
    exact optionIds_blocks_pairwise ts (optionsMatches text).enum
      (enum_fst_nodup (optionsMatches text))
  · intro n hn
    unfold optionNodes at hn
    rcases List.mem_flatMap.mp hn with ⟨im, _, hnm⟩
    rcases List.mem_map.mp hnm with ⟨cj, _, rfl⟩
    exact ⟨⟨im.1, cj.1, rfl⟩, rfl⟩

theorem addBold_fold_spec (ts : Nat) :
    ∀ (L : List (Nat × Str)) (ns : List MindMapNode),
      (L.map Prod.fst).Nodup →
      ((ns.map MindMapNode.id).Pairwise (· ≠ ·) ∧
        ∀ n ∈ ns, ((∃ i j, n.id = mkId (str "option") [ts, i, j]) ∨
          (∃ i, n.id = mkId (str "bold") [ts, i] ∧ ∀ im ∈ L, im.1 ≠ i)) ∧
          n.children = []) →
      (((L.foldl (addBold ts) ns).map MindMapNode.id).Pairwise (· ≠ ·) ∧
        ∀ n ∈ L.foldl (addBold ts) ns,
          ((∃ i j, n.id = mkId (str "option") [ts, i, j]) ∨
            (∃ i, n.id = mkId (str "bold") [ts, i])) ∧ n.children = []) := by
  intro L
  induction L with
  | nil =>
    intro ns _ h
    refine ⟨h.1, fun n hn => ?_⟩
    rcases h.2 n hn with ⟨hk, hch⟩
    rcases hk with hopt | ⟨i, hid, _⟩
    · exact ⟨Or.inl hopt, hch⟩
    · exact ⟨Or.inr ⟨i, hid⟩, hch⟩
  | cons hd L ih =>
    intro ns hnd h
    simp only [List.map_cons, List.nodup_cons] at hnd
    rw [List.foldl_cons]
    apply ih _ hnd.2
    by_cases hc : ((boldLabel hd.2).length < 40 &&
        !(ns.any fun n => n.name == boldLabel hd.2)) = true
    · have hstep : addBold ts ns hd =
          ns ++ [mkNode (mkId (str "bold") [ts, hd.1]) (boldLabel hd.2)
            (boldType (boldLabel hd.2)) 6] := by
        simp only [addBold]
        rw [if_pos hc]
      rw [hstep]
      constructor
      · rw [List.map_append, List.pairwise_append]
        refine ⟨h.1, by simp, ?_⟩
        intro a ha b hb heq
        simp only [List.map_cons, List.map_nil, List.mem_singleton] at hb
        rcases List.mem_map.mp ha with ⟨m, hm, rfl⟩
        rcases (h.2 m hm).1 with ⟨i, j, hid⟩ | ⟨i, hid, hfresh⟩
        · rw [hb, hid] at heq
          have := (mkId_inj _ _ _ _ optionTag_lower boldTag_lower heq).1
          simp [str] at this
        · rw [hb, hid] at heq
          have := (mkId_inj _ _ _ _ boldTag_lower boldTag_lower heq).2
          simp only [List.cons.injEq] at this
          exact hfresh hd (List.mem_cons_self hd L) this.2.1.symm
      · intro n hn
        rcases List.mem_append.mp hn with hn1 | hn2
        · rcases h.2 n hn1 with ⟨hk, hch⟩
          rcases hk with hopt | ⟨i, hid, hfresh⟩
          · exact ⟨Or.inl hopt, hch⟩
          · exact ⟨Or.inr ⟨i, hid, fun im him =>
              hfresh im (List.mem_cons_of_mem hd him)⟩, hch⟩
        · rcases List.mem_singleton.mp hn2 with rfl
          refine ⟨Or.inr ⟨hd.1, rfl, fun im him heq2 => ?_⟩, rfl⟩
          exact hnd.1 (heq2 ▸ List.mem_map.mpr ⟨im, him, rfl⟩)
    · have hstep : addBold ts ns hd = ns := by
        simp only [addBold]
        rw [if_neg hc]
      rw [hstep]
      refine ⟨h.1, fun n hn => ?_⟩
      rcases h.2 n hn with ⟨hk, hch⟩
      rcases hk with hopt | ⟨i, hid, hfresh⟩
      · exact ⟨Or.inl hopt, hch⟩
      · exact ⟨Or.inr ⟨i, hid, fun im him =>
          hfresh im (List.mem_cons_of_mem hd him)⟩, hch⟩

theorem addBullet_fold_spec (ts : Nat) :
    ∀ (items : List Str) (ns : List MindMapNode),
      ((ns.map MindMapNode.id).Pairwise (· ≠ ·) ∧
        ∀ n ∈ ns, ((∃ i j, n.id = mkId (str "option") [ts, i, j]) ∨
          (∃ i, n.id = mkId (str "bold") [ts, i]) ∨
          (∃ i, n.id = mkId (str "bullet") [ts, i] ∧ i < ns.length)) ∧
          n.children = []) →
      (((items.foldl (addBullet ts) ns).map MindMapNode.id).Pairwise (· ≠ ·) ∧
        ∀ n ∈ items.foldl (addBullet ts) ns,
          ((∃ i j, n.id = mkId (str "option") [ts, i, j]) ∨
            (∃ i, n.id = mkId (str "bold") [ts, i]) ∨
            (∃ i, n.id = mkId (str "bullet") [ts, i])) ∧ n.children = []) := by
  intro items
  induction items with
  | nil =>
    intro ns h
    refine ⟨h.1, fun n hn => ?_⟩
    rcases h.2 n hn with ⟨hk, hch⟩
    rcases hk with h1 | h2 | ⟨i, hid, _⟩
    · exact ⟨Or.inl h1, hch⟩
    · exact ⟨Or.inr (Or.inl h2), hch⟩
    · exact ⟨Or.inr (Or.inr ⟨i, hid⟩), hch⟩
  | cons item items ih =>
    intro ns h
    rw [List.foldl_cons]
    apply ih
    by_cases hc : (decide (wordCount (jsTrim item) ≤ 5) &&
        !(ns.any fun n => n.name == jsTrim item)) = true
    · have hstep : addBullet ts ns item =
          ns ++ [mkNode (mkId (str "bullet") [ts, ns.length]) (jsTrim item)
            .option 5] := by
        simp only [addBullet]
        rw [if_pos hc]
      rw [hstep]
      constructor
      · rw [List.map_append, List.pairwise_append]
        refine ⟨h.1, by simp, ?_⟩
        intro a ha b hb heq
        simp only [List.map_cons, List.map_nil, List.mem_singleton] at hb
        rcases List.mem_map.mp ha with ⟨m, hm, rfl⟩
        rcases (h.2 m hm).1 with ⟨i, j, hid⟩ | ⟨i, hid⟩ | ⟨i, hid, hlt⟩
        · rw [hb, hid] at heq
          have := (mkId_inj _ _ _ _ optionTag_lower bulletTag_lower heq).1
          simp [str] at this
        · rw [hb, hid] at heq
          have := (mkId_inj _ _ _ _ boldTag_lower bulletTag_lower heq).1
          simp [str] at this
        · rw [hb, hid] at heq
          have := (mkId_inj _ _ _ _ bulletTag_lower bulletTag_lower heq).2
          simp only [List.cons.injEq] at this
          omega
      · intro n hn
        rcases List.mem_append.mp hn with hn1 | hn2
        · rcases h.2 n hn1 with ⟨hk, hch⟩
          refine ⟨?_, hch⟩
          rcases hk with h1 | h2 | ⟨i, hid, hlt⟩
          · exact Or.inl h1
          · exact Or.inr (Or.inl h2)
          · exact Or.inr (Or.inr ⟨i, hid, by simp; omega⟩)
        · rcases List.mem_singleton.mp hn2 with rfl
          exact ⟨Or.inr (Or.inr ⟨ns.length, rfl, by simp⟩), rfl⟩
    · have hstep : addBullet ts ns item = ns := by
        simp only [addBullet]
        rw [if_neg hc]
      rw [hstep]
      exact h

theorem addNum_fold_spec (ts : Nat) :
    ∀ (items : List Str) (ns : List MindMapNode),
      ((ns.map MindMapNode.id).Pairwise (· ≠ ·) ∧
        ∀ n ∈ ns, ((∃ i j, n.id = mkId (str "option") [ts, i, j]) ∨
          (∃ i, n.id = mkId (str "bold") [ts, i]) ∨
          (∃ i, n.id = mkId (str "bullet") [ts, i]) ∨
          (∃ i, n.id = mkId (str "num") [ts, i] ∧ i < ns.length)) ∧
          n.children = []) →
      (((items.foldl (addNum ts) ns).map MindMapNode.id).Pairwise (· ≠ ·) ∧
        ∀ n ∈ items.foldl (addNum ts) ns,
          ((∃ i j, n.id = mkId (str "option") [ts, i, j]) ∨
            (∃ i, n.id = mkId (str "bold") [ts, i]) ∨
            (∃ i, n.id = mkId (str "bullet") [ts, i]) ∨
            (∃ i, n.id = mkId (str "num") [ts, i])) ∧ n.children = []) := by
  intro items
  induction items with
  | nil =>
    intro ns h
    refine ⟨h.1, fun n hn => ?_⟩
    rcases h.2 n hn with ⟨hk, hch⟩
    rcases hk with h1 | h2 | h3 | ⟨i, hid, _⟩
    · exact ⟨Or.inl h1, hch⟩
    · exact ⟨Or.inr (Or.inl h2), hch⟩
    · exact ⟨Or.inr (Or.inr (Or.inl h3)), hch⟩
    · exact ⟨Or.inr (Or.inr (Or.inr ⟨i, hid⟩)), hch⟩
  | cons item items ih =>
    intro ns h
    rw [List.foldl_cons]
    apply ih
    by_cases hc : (decide (wordCount (jsTrim (removeAll (str "**") item)) ≤ 6) &&
        !(ns.any fun n => n.name == jsTrim (removeAll (str "**") item))) = true
    · have hstep : addNum ts ns item =
          ns ++ [mkNode (mkId (str "num") [ts, ns.length])
            (jsTrim (removeAll (str "**") item)) .option 6] := by
        simp only [addNum]
        rw [if_pos hc]
      rw [hstep]
      constructor
      · rw [List.map_append, List.pairwise_append]
        refine ⟨h.1, by simp, ?_⟩
        intro a ha b hb heq
        simp only [List.map_cons, List.map_nil, List.mem_singleton] at hb
        rcases List.mem_map.mp ha with ⟨m, hm, rfl⟩
        rcases (h.2 m hm).1 with ⟨i, j, hid⟩ | ⟨i, hid⟩ | ⟨i, hid⟩ | ⟨i, hid, hlt⟩
        · rw [hb, hid] at heq
          have := (mkId_inj _ _ _ _ optionTag_lower numTag_lower heq).1
          simp [str] at this
        · rw [hb, hid] at heq
          have := (mkId_inj _ _ _ _ boldTag_lower numTag_lower heq).1
          simp [str] at this
        · rw [hb, hid] at heq
          have := (mkId_inj _ _ _ _ bulletTag_lower numTag_lower heq).1
          simp [str] at this
        · rw [hb, hid] at heq
          have := (mkId_inj _ _ _ _ numTag_lower numTag_lower heq).2
          simp only [List.cons.injEq] at this
          omega
      · intro n hn
        rcases List.mem_append.mp hn with hn1 | hn2
        · rcases h.2 n hn1 with ⟨hk, hch⟩
          refine ⟨?_, hch⟩
          rcases hk with h1 | h2 | h3 | ⟨i, hid, hlt⟩
          · exact Or.inl h1
          · exact Or.inr (Or.inl h2)
          · exact Or.inr (Or.inr (Or.inl h3))
          · exact Or.inr (Or.inr (Or.inr ⟨i, hid, by simp; omega⟩))
        · rcases List.mem_singleton.mp hn2 with rfl
          exact ⟨Or.inr (Or.inr (Or.inr ⟨ns.length, rfl, by simp⟩)), rfl⟩
    · have hstep : addNum ts ns item = ns := by
        simp only [addNum]
        rw [if_neg hc]
      rw [hstep]
      exact h

theorem updateAt_map_id :
    ∀ (i : Nat) (ns : List MindMapNode),
      (updateAt i promoteRec ns).map MindMapNode.id = ns.map MindMapNode.id := by
  intro i
  induction i with
  | zero =>
    intro ns
    cases ns with
    | nil => rfl
    | cons a as =>
      cases a
      rfl
  | succ j ih =>
    intro ns
    cases ns with
    | nil => rfl
    | cons a as => simp [updateAt, ih as]

theorem mem_updateAt_promote :
    ∀ (i : Nat) (ns : List MindMapNode) (n : MindMapNode),
      n ∈ updateAt i promoteRec ns →
      ∃ m ∈ ns, n.id = m.id ∧ n.children = m.children := by
  intro i
  induction i with
  | zero =>
    intro ns n hn
    cases ns with
    | nil => simp [updateAt] at hn
    | cons a as =>
      rcases List.mem_cons.mp hn with rfl | hmem
      · refine ⟨a, List.mem_cons_self a as, ?_⟩
        cases a
        exact ⟨rfl, rfl⟩
      · exact ⟨n, List.mem_cons_of_mem a hmem, rfl, rfl⟩
  | succ j ih =>
    intro ns n hn
    cases ns with
    | nil => simp [updateAt] at hn
    | cons a as =>
      rcases List.mem_cons.mp hn with rfl | hmem
      · exact ⟨n, List.mem_cons_self n as, rfl, rfl⟩
      · rcases ih as n hmem with ⟨m, hm, hid, hch⟩
        exact ⟨m, List.mem_cons_of_mem a hm, hid, hch⟩

theorem applyRec_spec (ts : Nat) (text : Str) (ns : List MindMapNode)
    (h : ((ns.map MindMapNode.id).Pairwise (· ≠ ·) ∧
      ∀ n ∈ ns, ((∃ i j, n.id = mkId (str "option") [ts, i, j]) ∨
        (∃ i, n.id = mkId (str "bold") [ts, i]) ∨
        (∃ i, n.id = mkId (str "bullet") [ts, i]) ∨
        (∃ i, n.id = mkId (str "num") [ts, i])) ∧ n.children = [])) :
    (((applyRec ts text ns).map MindMapNode.id).Pairwise (· ≠ ·) ∧
      ∀ n ∈ applyRec ts text ns,
        (∃ t ps, (t = str "option" ∨ t = str "bold" ∨ t = str "bullet" ∨
          t = str "num" ∨ t = str "rec") ∧ n.id = mkId t (ts :: ps)) ∧
        n.children = []) := by
  have hweak : ∀ n ∈ ns,
      (∃ t ps, (t = str "option" ∨ t = str "bold" ∨ t = str "bullet" ∨
        t = str "num" ∨ t = str "rec") ∧ n.id = mkId t (ts :: ps)) ∧
      n.children = [] := by
    intro n hn
    rcases h.2 n hn with ⟨hk, hch⟩
    rcases hk with ⟨i, j, hid⟩ | ⟨i, hid⟩ | ⟨i, hid⟩ | ⟨i, hid⟩
    · exact ⟨⟨str "option", [i, j], Or.inl rfl, hid⟩, hch⟩
    · exact ⟨⟨str "bold", [i], Or.inr (Or.inl rfl), hid⟩, hch⟩
    · exact ⟨⟨str "bullet", [i], Or.inr (Or.inr (Or.inl rfl)), hid⟩, hch⟩
    · exact ⟨⟨str "num", [i], Or.inr (Or.inr (Or.inr (Or.inl rfl))), hid⟩, hch⟩
  cases hr : recFind text with
  | none =>
    simp only [applyRec, hr]
    exact ⟨h.1, hweak⟩
  | some cap =>
    simp only [applyRec, hr]
    by_cases he : ((jsTrim (removeAll (str "**") cap)).take 40).isEmpty = true
    · rw [if_pos he]
      exact ⟨h.1, hweak⟩
    · rw [if_neg he]
      cases hi : List.findIdx?
          (recMatches ((jsTrim (removeAll (str "**") cap)).take 40)) ns with
      | some i =>
        constructor
        · rw [updateAt_map_id]
          exact h.1
        · intro n hn
          rcases mem_updateAt_promote i ns n hn with ⟨m, hm, hid, hch⟩
          rcases hweak m hm with ⟨⟨t, ps, ht, hmid⟩, hmch⟩
          exact ⟨⟨t, ps, ht, by rw [hid, hmid]⟩, by rw [hch, hmch]⟩
      | none =>
        constructor
        · rw [List.map_append, List.pairwise_append]
          refine ⟨h.1, by simp, ?_⟩
          intro a ha b hb heq
          simp only [List.map_cons, List.map_nil, List.mem_singleton] at hb
          rcases List.mem_map.mp ha with ⟨m, hm, rfl⟩
          rcases (h.2 m hm).1 with ⟨i, j, hid⟩ | ⟨i, hid⟩ | ⟨i, hid⟩ | ⟨i, hid⟩
          · rw [hb, hid] at heq
            have := (mkId_inj _ _ _ _ optionTag_lower recTag_lower heq).1
            simp [str] at this
          · rw [hb, hid] at heq
            have := (mkId_inj _ _ _ _ boldTag_lower recTag_lower heq).1
            simp [str] at this
          · rw [hb, hid] at heq
            have := (mkId_inj _ _ _ _ bulletTag_lower recTag_lower heq).1
            simp [str] at this
          · rw [hb, hid] at heq
            have := (mkId_inj _ _ _ _ numTag_lower recTag_lower heq).1
            simp [str] at this
        · intro n hn
          rcases List.mem_append.mp hn with hn1 | hn2
          · exact hweak n hn1
          · rcases List.mem_singleton.mp hn2 with rfl
            exact ⟨⟨str "rec", [], Or.inr (Or.inr (Or.inr (Or.inr rfl))), rfl⟩, rfl⟩

theorem extract_ids_spec (ts mi : Nat) (text : Str) :
    (((extractFromAIMessage ts mi text).map MindMapNode.id).Pairwise (· ≠ ·)) ∧
    ∀ n ∈ extractFromAIMessage ts mi text,
      (∃ t ps, (t = str "option" ∨ t = str "bold" ∨ t = str "bullet" ∨
        t = str "num" ∨ t = str "rec") ∧ n.id = mkId t (ts :: ps)) ∧
      n.children = [] := by
  have h1 := optionNodes_spec ts text
  have h2 := addBold_fold_spec ts (boldMatches text).enum (optionNodes ts text)
    (enum_fst_nodup _)
    ⟨h1.1, fun n hn => ⟨Or.inl (h1.2 n hn).1, (h1.2 n hn).2⟩⟩
  have h3 := addBullet_fold_spec ts (bulletItemsRaw text) _
    ⟨h2.1, fun n hn => by
      rcases h2.2 n hn with ⟨hk, hch⟩
      rcases hk with hopt | hbold
      · exact ⟨Or.inl hopt, hch⟩
      · exact ⟨Or.inr (Or.inl hbold), hch⟩⟩
  have h4 := addNum_fold_spec ts (numItemsRaw text) _
    ⟨h3.1, fun n hn => by
      rcases h3.2 n hn with ⟨hk, hch⟩
      rcases hk with hopt | hbold | hbul
      · exact ⟨Or.inl hopt, hch⟩
      · exact ⟨Or.inr (Or.inl hbold), hch⟩
      · exact ⟨Or.inr (Or.inr (Or.inl hbul)), hch⟩⟩
  exact applyRec_spec ts text _ h4

theorem tag5_lower (t : Str)
    (ht : t = str "option" ∨ t = str "bold" ∨ t = str "bullet" ∨
      t = str "num" ∨ t = str "rec") :
    ∀ c ∈ t, isLowerCh c = true := by
  rcases ht with rfl | rfl | rfl | rfl | rfl
  · exact optionTag_lower
  · exact boldTag_lower
  · exact bulletTag_lower
  · exact numTag_lower
  · exact recTag_lower

theorem children_ids_spec (msgTs : Nat → Nat)
    (hinj : ∀ i j : Nat, msgTs i = msgTs j → i = j) :
    ∀ (L : List (Nat × Message)), (L.map Prod.fst).Nodup →
      (((L.flatMap fun im =>
          extractFromAIMessage (msgTs im.1) im.1 im.2.text).map
          MindMapNode.id).Pairwise (· ≠ ·)) ∧
      ∀ n ∈ L.flatMap fun im => extractFromAIMessage (msgTs im.1) im.1 im.2.text,
        (∃ t ps, (t = str "option" ∨ t = str "bold" ∨ t = str "bullet" ∨
          t = str "num" ∨ t = str "rec") ∧ n.id = mkId t ps) ∧
        n.children = [] := by
  intro L
  induction L with
  | nil => intro _; exact ⟨by simp, by simp⟩
  | cons hd L ih =>
    intro hnd
    simp only [List.map_cons, List.nodup_cons] at hnd
    rw [List.flatMap_cons]
    constructor
    · rw [List.map_append, List.pairwise_append]
      refine ⟨(extract_ids_spec (msgTs hd.1) hd.1 hd.2.text).1, (ih hnd.2).1, ?_⟩
      intro a ha b hb heq
      rcases List.mem_map.mp ha with ⟨m, hm, rfl⟩
      rcases List.mem_map.mp hb with ⟨m', hm', rfl⟩
      rcases List.mem_flatMap.mp hm' with ⟨im, him, hm'2⟩
      rcases ((extract_ids_spec (msgTs hd.1) hd.1 hd.2.text).2 m hm).1 with
        ⟨t, ps, ht, hid⟩
      rcases ((extract_ids_spec (msgTs im.1) im.1 im.2.text).2 m' hm'2).1 with
        ⟨t', ps', ht', hid'⟩
      rw [hid, hid'] at heq
      have hij := mkId_inj _ _ _ _ (tag5_lower t ht) (tag5_lower t' ht') heq
      have hts : msgTs hd.1 = msgTs im.1 := by
        have := hij.2
        simp only [List.cons.injEq] at this
        exact this.1
      refine hnd.1 ?_
      rw [hinj hd.1 im.1 hts]
      exact List.mem_map.mpr ⟨im, him, rfl⟩
    · intro n hn
      rcases List.mem_append.mp hn with hn1 | hn2
      · rcases ((extract_ids_spec (msgTs hd.1) hd.1 hd.2.text).2 n hn1) with
          ⟨⟨t, ps, ht, hid⟩, hch⟩
        exact ⟨⟨t, msgTs hd.1 :: ps, ht, hid⟩, hch⟩
      · exact (ih hnd.2).2 n hn2

theorem markFirstOption_map_id (cs : List MindMapNode) :
    (markFirstOption cs).map MindMapNode.id = cs.map MindMapNode.id := by
  induction cs with
  | nil => rfl
  | cons a as ih =>
    by_cases ha : (a.type == NodeType.option) = true
    · rw [markFirstOption, if_pos ha]
      cases a
      rfl
    · rw [markFirstOption, if_neg ha]
      simp [ih]

theorem markFirstOption_children (cs : List MindMapNode)
    (h : ∀ n ∈ cs, n.children = []) :
    ∀ n ∈ markFirstOption cs, n.children = [] := by
  induction cs with
  | nil => intro n hn; simp [markFirstOption] at hn
  | cons a as ih =>
    intro n hn
    by_cases ha : (a.type == NodeType.option) = true
    · rw [markFirstOption, if_pos ha] at hn
      rcases List.mem_cons.mp hn with rfl | hmem
      · cases a with
        | mk i nm t w r ch =>
          have := h _ (List.mem_cons_self _ as)
          simpa [promoteRec, MindMapNode.children] using this
      · exact h n (List.mem_cons_of_mem a hmem)
    · rw [markFirstOption, if_neg ha] at hn
      rcases List.mem_cons.mp hn with rfl | hmem
      · exact h n (List.mem_cons_self n as)
      · exact ih (fun m hm => h m (List.mem_cons_of_mem a hm)) n hmem

theorem flatIdsL_leaves (l : List MindMapNode) (h : ∀ n ∈ l, n.children = []) :
    flatIdsL l = l.map MindMapNode.id := by
  induction l with
  | nil => rfl
  | cons a as ih =>
    rw [flatIdsL]
    have ha : flatIds a = [a.id] := by
      cases a with
      | mk i nm t w r ch =>
        have := h _ (List.mem_cons_self _ as)
        simp only [MindMapNode.children] at this
        subst this
        rw [flatIds]
        rfl
    rw [ha, ih fun m hm => h m (List.mem_cons_of_mem a hm)]
    rfl

theorem topicId_eq_mkId (tts : Nat) :
    str "topic-" ++ natStr tts = mkId (str "topic") [tts] := by
  unfold mkId
  simp only [List.flatMap_cons, List.flatMap_nil, List.append_nil]
  rfl

theorem parseId_root_instant : parseId (str "root-instant") = none := by decide

theorem tag5_ne_topic (t : Str)
    (ht : t = str "option" ∨ t = str "bold" ∨ t = str "bullet" ∨
      t = str "num" ∨ t = str "rec") : t ≠ str "topic" := by
  rcases ht with rfl | rfl | rfl | rfl | rfl <;> decide

theorem tag5_ne_nil (t : Str)
    (ht : t = str "option" ∨ t = str "bold" ∨ t = str "bullet" ∨
      t = str "num" ∨ t = str "rec") : t ≠ [] := by
  rcases ht with rfl | rfl | rfl | rfl | rfl <;> decide

theorem flatIds_instantRoot : flatIds instantRoot = [str "root-instant"] := by
  rw [instantRoot, flatIds]
  rfl

/-- C4 as amended: every node of the extracted tree has a non-empty id, and —
provided the `Date.now()` values observed by the per-message extraction calls
are pairwise distinct — the ids are pairwise distinct within the tree.  (The
ids do not embed the unused `msgIndex`, so with equal timestamps across
messages the uniqueness fails; see the counterexample.) -/
theorem c4_ids_unique_distinct_timestamps (topicTs : Nat) (msgTs : Nat → Nat)
    (messages : List Message)
    (hinj : ∀ i j : Nat, msgTs i = msgTs j → i = j) :
    (∀ i ∈ flatIds (generateInstantMindMap topicTs msgTs messages), i ≠ []) ∧
    (flatIds (generateInstantMindMap topicTs msgTs messages)).Pairwise (· ≠ ·) := by
  cases messages with
  | nil =>
    rw [generateInstantMindMap, flatIds_instantRoot]
    exact ⟨by decide, by simp⟩
  | cons m ms =>
    by_cases hm : (extractMainTopic
        (List.filter (fun x => x.role == .user) (m :: ms))).isEmpty = true
    · rw [generateInstantMindMap]
      rw [if_pos hm, flatIds_instantRoot]
      exact ⟨by decide, by simp⟩
    · have hspec := children_ids_spec msgTs hinj
        ((List.filter (fun x => x.role == Role.model) (m :: ms)).enum)
        (enum_fst_nodup _)
      have hchl : ∀ n ∈ (List.filter (fun x => x.role == Role.model)
          (m :: ms)).enum.flatMap
            (fun im => extractFromAIMessage (msgTs im.1) im.1 im.2.text),
          n.children = [] := fun n hn => (hspec.2 n hn).2
      have hids : flatIds (generateInstantMindMap topicTs msgTs (m :: ms)) =
          str "root-instant" :: (str "topic-" ++ natStr topicTs) ::
            ((List.filter (fun x => x.role == Role.model) (m :: ms)).enum.flatMap
              (fun im => extractFromAIMessage (msgTs im.1) im.1 im.2.text)).map
              MindMapNode.id := by
        rw [generateInstantMindMap]
        rw [if_neg hm]
        rw [flatIds, flatIdsL, flatIds, flatIdsL]
        rw [flatIdsL_leaves _ (markFirstOption_children _ hchl),
          markFirstOption_map_id]
        simp [MindMapNode.id]
      rw [hids]
      constructor
      · intro i hi
        rcases List.mem_cons.mp hi with rfl | hi2
        · decide
        rcases List.mem_cons.mp hi2 with rfl | hi3
        · rw [topicId_eq_mkId]
          exact mkId_ne_nil _ _ (by decide)
        · rcases List.mem_map.mp hi3 with ⟨n, hn, rfl⟩
          rcases (hspec.2 n hn).1 with ⟨t, ps, ht, hid⟩
          rw [hid]
          exact mkId_ne_nil _ _ (tag5_ne_nil t ht)
      · rw [List.pairwise_cons]
        constructor
        · intro b hb heq
          rcases List.mem_cons.mp hb with rfl | hb2
          · rw [topicId_eq_mkId] at heq
            have h1 : parseId (mkId (str "topic") [topicTs]) =
                some (str "topic", [topicTs]) := parseId_mkId _ _ topicTag_lower
            rw [← heq, parseId_root_instant] at h1
            cases h1
          · rcases List.mem_map.mp hb2 with ⟨n, hn, rfl⟩
            rcases (hspec.2 n hn).1 with ⟨t, ps, ht, hid⟩
            rw [hid] at heq
            have h1 : parseId (mkId t ps) = some (t, ps) :=
              parseId_mkId _ _ (tag5_lower t ht)
            rw [← heq, parseId_root_instant] at h1
            cases h1
        · rw [List.pairwise_cons]
          refine ⟨?_, hspec.1⟩
          intro b hb heq
          rcases List.mem_map.mp hb with ⟨n, hn, rfl⟩
          rcases (hspec.2 n hn).1 with ⟨t, ps, ht, hid⟩
          rw [hid, topicId_eq_mkId] at heq
          have := (mkId_inj _ _ _ _ topicTag_lower (tag5_lower t ht) heq).1
          exact tag5_ne_topic t ht this.symm

/-- C4 witness: with pairwise-distinct per-message timestamps the same
conversation that collides under equal timestamps gets pairwise-distinct,
non-empty ids. -/
theorem c4_ids_unique_witness :
    (∀ i ∈ flatIds (generateInstantMindMap 100 (fun i => i)
      [⟨.user, str "Hi"⟩, ⟨.model, str "I recommend X"⟩,
       ⟨.model, str "I recommend X"⟩]), i ≠ []) ∧
    (flatIds (generateInstantMindMap 100 (fun i => i)
      [⟨.user, str "Hi"⟩, ⟨.model, str "I recommend X"⟩,
       ⟨.model, str "I recommend X"⟩])).Pairwise (· ≠ ·) :=
  c4_ids_unique_distinct_timestamps 100 (fun i => i)
    [⟨.user, str "Hi"⟩, ⟨.model, str "I recommend X"⟩,
     ⟨.model, str "I recommend X"⟩]
    (fun i j h => h)

theorem tryOptionsAt_none (cs : Str)
    (h : ciStartsWith (str "[options:") cs = false) : tryOptionsAt cs = none := by
  simp [tryOptionsAt, h]

theorem scanG_none {α : Type} (tryf : Str → Option (α × Str)) :
    ∀ (f : Nat) (cs : Str), cs.length ≤ f →
      (∀ p ≤ cs.length, tryf (cs.drop p) = none) → scanG tryf f cs = [] := by
  intro f
  induction f with
  | zero => intro cs _ _; cases cs <;> rfl
  | succ f ih =>
    intro cs hlen h
    cases cs with
    | nil => rfl
    | cons c rest =>
      rw [scanG]
      have h0 := h 0 (Nat.zero_le _)
      simp only [List.drop_zero] at h0
      rw [h0]
      apply ih rest (by simpa using Nat.le_of_succ_le_succ hlen)
      intro p hp
      have := h (p + 1) (by simpa using Nat.succ_le_succ hp)
      simpa using this

theorem scanFirst_none {α : Type} (tryf : Str → Option α) :
    ∀ (f : Nat) (cs : Str), cs.length ≤ f →
      (∀ p ≤ cs.length, tryf (cs.drop p) = none) → scanFirst tryf f cs = none := by
  intro f
  induction f with
  | zero => intro cs _ _; cases cs <;> rfl
  | succ f ih =>
    intro cs hlen h
    cases cs with
    | nil => rfl
    | cons c rest =>
      rw [scanFirst]
      have h0 := h 0 (Nat.zero_le _)
      simp only [List.drop_zero] at h0
      rw [h0]
      apply ih rest (by simpa using Nat.le_of_succ_le_succ hlen)
      intro p hp
      have := h (p + 1) (by simpa using Nat.succ_le_succ hp)
      simpa using this

theorem tryOptionsAt_lit (post : Str) :
    tryOptionsAt (str "[OPTIONS: A | B | C]" ++ post) =
      some (str "[OPTIONS: A | B | C]", post) := by
  have hci : ciStartsWith (str "[options:") (str "[OPTIONS: A | B | C]" ++ post) =
      true := by
    simp [str, ciStartsWith, asciiLower]
  have hdrop : (str "[OPTIONS: A | B | C]" ++ post).drop 9 =
      str " A | B | C" ++ (']' :: post) := by
    rw [List.drop_append_of_le_length (by decide)]
    rfl
  have htake : (str " A | B | C" ++ (']' :: post)).takeWhile
      (fun c => !(c == ']')) = str " A | B | C" := by
    apply takeWhile_eq_self_of_stop
    · decide
    · exact Or.inr ⟨']', post, rfl, by decide⟩
  have hmid : (str " A | B | C" ++ (']' :: post)).drop
      (str " A | B | C").length = ']' :: post := List.drop_left _ _
  have htk : (str "[OPTIONS: A | B | C]" ++ post).take
      (9 + (str " A | B | C").length + 1) = str "[OPTIONS: A | B | C]" := by
    have h20 : 9 + (str " A | B | C").length + 1 =
        (str "[OPTIONS: A | B | C]").length := by decide
    rw [h20, List.take_left]
  simp only [tryOptionsAt, hci, if_true, hdrop, htake, hmid, htk,
    (by decide : (str " A | B | C").isEmpty = false), Bool.false_eq_true,
    if_false, (by decide : (']' == ']') = true)]

theorem scanG_cons_some {α : Type} (tryf : Str → Option (α × Str)) (f : Nat)
    (c : Char) (cs : Str) (a : α) (rem : Str) (h : tryf (c :: cs) = some (a, rem)) :
    scanG tryf (f + 1) (c :: cs) = a :: scanG tryf f rem := by
  rw [scanG, h]

theorem scanG_cons_none {α : Type} (tryf : Str → Option (α × Str)) (f : Nat)
    (c : Char) (cs : Str) (h : tryf (c :: cs) = none) :
    scanG tryf (f + 1) (c :: cs) = scanG tryf f cs := by
  rw [scanG, h]

theorem lit_length : (str "[OPTIONS: A | B | C]").length = 20 := by decide

theorem optionsMatches_unique :
    ∀ (pre : Str) (post : Str) (f : Nat),
      (pre ++ (str "[OPTIONS: A | B | C]" ++ post)).length ≤ f →
      (∀ p ≤ (pre ++ (str "[OPTIONS: A | B | C]" ++ post)).length,
        ciStartsWith (str "[options:")
          ((pre ++ (str "[OPTIONS: A | B | C]" ++ post)).drop p) = true →
        (pre ++ (str "[OPTIONS: A | B | C]" ++ post)).drop p =
          str "[OPTIONS: A | B | C]" ++ post) →
      scanG tryOptionsAt f (pre ++ (str "[OPTIONS: A | B | C]" ++ post)) =
        [str "[OPTIONS: A | B | C]"] := by
  intro pre
  induction pre with
  | nil =>
    intro post f hf hyp
    simp only [List.nil_append] at hf hyp ⊢
    cases f with
    | zero =>
      exfalso
      rw [List.length_append, lit_length] at hf
      omega
    | succ f' =>
      have hl : str "[OPTIONS: A | B | C]" ++ post =
          '[' :: (str "OPTIONS: A | B | C]" ++ post) := rfl
      have hmatch := tryOptionsAt_lit post
      rw [hl] at hmatch ⊢
      rw [scanG_cons_some _ f' _ _ _ _ hmatch]
      congr 1
      apply scanG_none
      · rw [List.length_append, lit_length] at hf
        omega
      · intro p hp
        apply tryOptionsAt_none
        by_contra hcn
        rw [Bool.not_eq_false] at hcn
        have hd : (str "[OPTIONS: A | B | C]" ++ post).drop (20 + p) =
            post.drop p := by
          have h20 := lit_length
          rw [show (20 : Nat) + p = (str "[OPTIONS: A | B | C]").length + p from by
            rw [h20]]
          exact List.drop_append p
        have h2 := hyp (20 + p)
          (by rw [List.length_append, lit_length]; omega)
          (by rw [hd]; exact hcn)
        rw [hd] at h2
        have hlen2 := congrArg List.length h2
        rw [List.length_drop, List.length_append, lit_length] at hlen2
        omega
  | cons c pre ih =>
    intro post f hf hyp
    have hshape : (c :: pre) ++ (str "[OPTIONS: A | B | C]" ++ post) =
        c :: (pre ++ (str "[OPTIONS: A | B | C]" ++ post)) := rfl
    rw [hshape] at hyp hf ⊢
    cases f with
    | zero =>
      exfalso
      rw [List.length_cons] at hf
      omega
    | succ f' =>
      have hfail : tryOptionsAt
          (c :: (pre ++ (str "[OPTIONS: A | B | C]" ++ post))) = none := by
        apply tryOptionsAt_none
        by_contra hcn
        rw [Bool.not_eq_false] at hcn
        have h2 := hyp 0 (Nat.zero_le _) (by simpa using hcn)
        have hlen2 := congrArg List.length h2
        simp only [List.drop_zero, List.length_cons, List.length_append] at hlen2
        omega
      rw [scanG_cons_none _ f' _ _ hfail]
      apply ih post f'
      · rw [List.length_cons] at hf
        omega
      · intro p hp hci
        have := hyp (p + 1) (by simpa using Nat.succ_le_succ hp) (by simpa using hci)
        simpa using this

theorem tryKws_none (cs : Str) :
    ∀ (kws : List Str), (∀ kw ∈ kws, ciStartsWith kw cs = false) →
      tryRecAt.tryKws cs kws = none := by
  intro kws
  induction kws with
  | nil => intro _; rfl
  | cons kw kws ih =>
    intro h
    rw [tryRecAt.tryKws]
    rw [h kw (List.mem_cons_self kw kws), if_neg (by simp)]
    exact ih fun k hk => h k (List.mem_cons_of_mem kw hk)

theorem recFind_none (text : Str)
    (h : ∀ p ≤ text.length, ∀ kw ∈ recKeywords,
      ciStartsWith kw (text.drop p) = false) :
    recFind text = none := by
  unfold recFind
  apply scanFirst_none _ _ _ le_rfl
  intro p hp
  unfold tryRecAt
  exact tryKws_none _ recKeywords (h p hp)

theorem foldl_extends {β : Type} (step : List MindMapNode → β → List MindMapNode)
    (h : ∀ acc b, ∃ e, step acc b = acc ++ e) :
    ∀ (items : List β) (acc : List MindMapNode),
      ∃ E, items.foldl step acc = acc ++ E := by
  intro items
  induction items with
  | nil => intro acc; exact ⟨[], by simp⟩
  | cons b bs ih =>
    intro acc
    obtain ⟨e, he⟩ := h acc b
    obtain ⟨E, hE⟩ := ih (acc ++ e)
    exact ⟨e ++ E, by rw [List.foldl_cons, he, hE, List.append_assoc]⟩

theorem addBold_extends (ts : Nat) (acc : List MindMapNode) (b : Nat × Str) :
    ∃ e, addBold ts acc b = acc ++ e := by
  simp only [addBold]
  by_cases hc : ((boldLabel b.2).length < 40 &&
      !(acc.any fun n => n.name == boldLabel b.2)) = true
  · exact ⟨_, by rw [if_pos hc]⟩
  · exact ⟨[], by rw [if_neg hc]; simp⟩

theorem addBullet_extends (ts : Nat) (acc : List MindMapNode) (b : Str) :
    ∃ e, addBullet ts acc b = acc ++ e := by
  simp only [addBullet]
  by_cases hc : (decide (wordCount (jsTrim b) ≤ 5) &&
      !(acc.any fun n => n.name == jsTrim b)) = true
  · exact ⟨_, by rw [if_pos hc]⟩
  · exact ⟨[], by rw [if_neg hc]; simp⟩

theorem addNum_extends (ts : Nat) (acc : List MindMapNode) (b : Str) :
    ∃ e, addNum ts acc b = acc ++ e := by
  simp only [addNum]
  by_cases hc : (decide (wordCount (jsTrim (removeAll (str "**") b)) ≤ 6) &&
      !(acc.any fun n => n.name == jsTrim (removeAll (str "**") b))) = true
  · exact ⟨_, by rw [if_pos hc]⟩
  · exact ⟨[], by rw [if_neg hc]; simp⟩

theorem optionNodes_of_lit_match (ts : Nat) (text : Str)
    (hm : optionsMatches text = [str "[OPTIONS: A | B | C]"]) :
    optionNodes ts text =
      [mkNode (mkId (str "option") [ts, 0, 0]) (str "A") .option 7,
       mkNode (mkId (str "option") [ts, 0, 1]) (str "B") .option 6,
       mkNode (mkId (str "option") [ts, 0, 2]) (str "C") .option 5] := by
  unfold optionNodes
  rw [hm]
  have hch : optionChoices (str "[OPTIONS: A | B | C]") =
      [str "A", str "B", str "C"] := by decide
  simp [List.enum, List.enumFrom, hch]
  refine ⟨rfl, rfl, rfl⟩

/-- C1 as amended: for every assistant-message text containing the literal
`[OPTIONS: A | B | C]` in which the (case-insensitive) opener `[OPTIONS:`
occurs only at that bracket list and no recommendation keyword occurs, the
mined node list begins with exactly the three option nodes "A", "B", "C" in
that order with strictly decreasing weights 7, 6, 5; later extraction steps
may append further nodes, so the output need not contain exactly three option
nodes. -/
theorem c1_options_block_mining (ts mi : Nat) (pre post : Str)
    (hopener : ∀ p ≤ (pre ++ (str "[OPTIONS: A | B | C]" ++ post)).length,
      ciStartsWith (str "[options:")
        ((pre ++ (str "[OPTIONS: A | B | C]" ++ post)).drop p) = true →
      (pre ++ (str "[OPTIONS: A | B | C]" ++ post)).drop p =
        str "[OPTIONS: A | B | C]" ++ post)
    (hnorec : ∀ p ≤ (pre ++ (str "[OPTIONS: A | B | C]" ++ post)).length,
      ∀ kw ∈ recKeywords,
        ciStartsWith kw ((pre ++ (str "[OPTIONS: A | B | C]" ++ post)).drop p) =
          false) :
    ∃ rest, extractFromAIMessage ts mi (pre ++ (str "[OPTIONS: A | B | C]" ++ post)) =
      mkNode (mkId (str "option") [ts, 0, 0]) (str "A") .option 7 ::
      mkNode (mkId (str "option") [ts, 0, 1]) (str "B") .option 6 ::
      mkNode (mkId (str "option") [ts, 0, 2]) (str "C") .option 5 :: rest := by
  have hm : optionsMatches (pre ++ (str "[OPTIONS: A | B | C]" ++ post)) =
      [str "[OPTIONS: A | B | C]"] :=
    optionsMatches_unique pre post _ le_rfl hopener
  have hopt := optionNodes_of_lit_match ts _ hm
  have hrec : recFind (pre ++ (str "[OPTIONS: A | B | C]" ++ post)) = none :=
    recFind_none _ hnorec
  simp only [extractFromAIMessage]
  obtain ⟨E2, hE2⟩ := foldl_extends (addBold ts) (addBold_extends ts)
    (boldMatches (pre ++ (str "[OPTIONS: A | B | C]" ++ post))).enum
    (optionNodes ts (pre ++ (str "[OPTIONS: A | B | C]" ++ post)))
  obtain ⟨E3, hE3⟩ := foldl_extends (addBullet ts) (addBullet_extends ts)
    (bulletItemsRaw (pre ++ (str "[OPTIONS: A | B | C]" ++ post)))
    (optionNodes ts (pre ++ (str "[OPTIONS: A | B | C]" ++ post)) ++ E2)
  obtain ⟨E4, hE4⟩ := foldl_extends (addNum ts) (addNum_extends ts)
    (numItemsRaw (pre ++ (str "[OPTIONS: A | B | C]" ++ post)))
    ((optionNodes ts (pre ++ (str "[OPTIONS: A | B | C]" ++ post)) ++ E2) ++ E3)
  rw [hE2, hE3, hE4]
  simp only [applyRec, hrec]
  rw [hopt]
  exact ⟨E2 ++ E3 ++ E4, by simp⟩

/-- C1 witness: the bare literal message `[OPTIONS: A | B | C]` satisfies the
side conditions and mines exactly the three option nodes A, B, C with weights
7, 6, 5. -/
theorem c1_options_block_mining_witness :
    ∃ rest, extractFromAIMessage 0 0 ([] ++ (str "[OPTIONS: A | B | C]" ++ [])) =
      mkNode (mkId (str "option") [0, 0, 0]) (str "A") .option 7 ::
      mkNode (mkId (str "option") [0, 0, 1]) (str "B") .option 6 ::
      mkNode (mkId (str "option") [0, 0, 2]) (str "C") .option 5 :: rest :=
  c1_options_block_mining 0 0 [] [] (by decide) (by decide)
